import Mathlib

/-!
Verification development for the molstar structure-query combinators
(`wholeResidues`, `includeSurroundings`, `querySelection`, `intersectBy`,
`exceptBy`, `union`, `expandProperty`).

The combinators are shallowly embedded: queries are functions from an
explicit evaluation context to an `Except`-wrapped selection paired with
the updated context (modelling the mutable `QueryContext` plus thrown
timeout errors).  External collaborators that the combinator file only
consumes (the selection module, the subset builders, the structure set
operations, the spatial index) are modelled from the specification's
description of their contracts; each such definition carries a doc
comment saying so.
-/

namespace MolQuery

/-- Kind tag of a unit: `Atomic` or other (coarse-grained). -/
inductive MKind where
  | atomic
  | coarse
deriving DecidableEq, Repr

/-- A unit of a structure: stable integer id, kind tag, the residue-offset
table of its model's atomic hierarchy (`model.atomicHierarchy.residueAtomSegments.offsets`),
and its ordered element sequence. -/
structure MUnit where
  uid : Nat
  kind : MKind
  residueOffsets : List Nat
  elems : List Nat
deriving DecidableEq, Repr

/-- A structure: an ordered collection of units. -/
structure MStructure where
  units : List MUnit
deriving DecidableEq, Repr

/-- Modelled from the spec: a selection is either a singleton (one structure,
tagged as directly derived from the full input) or a list of structures. -/
inductive MSel where
  | singleton (source : MStructure) (s : MStructure)
  | sequence (source : MStructure) (structures : List MStructure)
deriving DecidableEq, Repr

/-- Events recorded by the instrumented evaluator: one `item` per loop
iteration of a combinator, one `check` per deadline check performed. -/
inductive Event where
  | item
  | check
deriving DecidableEq, Repr

/-- Errors thrown during evaluation: the context's timeout, or the
JavaScript `TypeError` raised by dereferencing an out-of-bounds (hence
`undefined`) array slot. -/
inductive QErr where
  | timeout
  | typeError
deriving DecidableEq, Repr

/-- The current-element cursor of the query context: current unit and
current element index, each possibly unset. -/
structure Cursor where
  cunit : Option MUnit
  celem : Option Nat
deriving DecidableEq, Repr

/-- The mutable query evaluation context: stack of input structures
(top = head), current-element cursor plus its save stack, the deadline
flag (`timedOut` means the wall-clock deadline has passed, so the next
deadline check throws), and instrumentation (event trace, number of
spatial-index queries issued). -/
structure Ctx where
  inputStack : List MStructure
  cursor : Cursor
  cursorStack : List Cursor
  timedOut : Bool
  events : List Event
  lookupCalls : Nat
deriving DecidableEq, Repr

/-- Top of the input-structure stack (`ctx.inputStructure`). -/
def inputStructure (ctx : Ctx) : MStructure :=
  ctx.inputStack.headD ⟨[]⟩

/-- `ctx.pushInputStructure(s)`. -/
def pushInput (ctx : Ctx) (s : MStructure) : Ctx :=
  { ctx with inputStack := s :: ctx.inputStack }

/-- `ctx.popInputStructure()`. -/
def popInput (ctx : Ctx) : Ctx :=
  { ctx with inputStack := ctx.inputStack.tail }

/-- `ctx.pushCurrentElement()`: saves the current cursor and starts a
fresh one. -/
def pushCurrentElement (ctx : Ctx) : Ctx :=
  { ctx with cursorStack := ctx.cursor :: ctx.cursorStack,
             cursor := ⟨none, none⟩ }

/-- `ctx.popCurrentElement()`: restores the previously saved cursor. -/
def popCurrentElement (ctx : Ctx) : Ctx :=
  { ctx with cursor := ctx.cursorStack.headD ⟨none, none⟩,
             cursorStack := ctx.cursorStack.tail }

/-- `ctx.element.unit = u`. -/
def setCursorUnit (ctx : Ctx) (u : MUnit) : Ctx :=
  { ctx with cursor := { ctx.cursor with cunit := some u } }

/-- `ctx.element.element = e`. -/
def setCursorElem (ctx : Ctx) (e : Nat) : Ctx :=
  { ctx with cursor := { ctx.cursor with celem := some e } }

/-- `ctx.throwIfTimedOut()`: records a deadline check and throws the
timeout error if the deadline has passed. -/
def throwIfTimedOut (ctx : Ctx) : Except QErr Unit × Ctx :=
  let c := { ctx with events := ctx.events ++ [Event.check] }
  if ctx.timedOut then (Except.error QErr.timeout, c) else (Except.ok (), c)

/-- Instrumentation: record that one loop item was processed. -/
def tickItem (ctx : Ctx) : Ctx :=
  { ctx with events := ctx.events ++ [Event.item] }

/-- A query: a function from context to a selection, threading the mutable
context and propagating thrown errors. -/
abbrev Query := Ctx → Except QErr MSel × Ctx

/-- A per-atom property function.  Modelled from the spec: a pure function
of the context's current cursor (unit and element), deterministic for a
fixed cursor state. -/
abbrev PropFn (V : Type) := MUnit → Nat → V

/-- The structures of a selection, in iteration order
(`StructureSelection.forEach`). -/
def selStructures : MSel → List MStructure
  | MSel.singleton _ s => [s]
  | MSel.sequence _ ss => ss

/-- The source structure a selection is associated with. -/
def selSource : MSel → MStructure
  | MSel.singleton src _ => src
  | MSel.sequence src _ => src

/-- Modelled from the spec: `StructureSelection.structureCount`. -/
def structureCount : MSel → Nat
  | MSel.singleton _ _ => 1
  | MSel.sequence _ ss => ss.length

/-- Modelled from the spec: `StructureSelection.Empty(source)`, the
empty-but-typed selection. -/
def selEmpty (source : MStructure) : MSel :=
  MSel.sequence source []

/-- Total number of elements of a structure (`structure.elementCount`). -/
def elementCount (s : MStructure) : Nat :=
  (s.units.map (fun u => u.elems.length)).sum

/-- The (unit id, element) pairs of one unit. -/
def toPairsU (u : MUnit) : Finset (Nat × Nat) :=
  u.elems.toFinset.image (fun e => (u.uid, e))

/-- The (unit id, element) pairs of a list of units. -/
def toPairsL : List MUnit → Finset (Nat × Nat)
  | [] => ∅
  | u :: us => toPairsU u ∪ toPairsL us

/-- The element set of a structure, as (unit id, element) pairs. -/
def toPairs (s : MStructure) : Finset (Nat × Nat) :=
  toPairsL s.units

/-- The element-wise union of the element sets of a list of structures. -/
def selPairsL : List MStructure → Finset (Nat × Nat)
  | [] => ∅
  | s :: ss => toPairs s ∪ selPairsL ss

theorem mem_toPairsU {u : MUnit} {p : Nat × Nat} :
    p ∈ toPairsU u ↔ p.1 = u.uid ∧ p.2 ∈ u.elems := by
  cases p with
  | mk a b =>
    simp only [toPairsU, Finset.mem_image, List.mem_toFinset, Prod.mk.injEq]
    constructor
    · rintro ⟨e, he, h1, h2⟩
      exact ⟨h1.symm, h2 ▸ he⟩
    · rintro ⟨h1, h2⟩
      exact ⟨b, h2, h1.symm, rfl⟩

theorem mem_toPairsL {us : List MUnit} {p : Nat × Nat} :
    p ∈ toPairsL us ↔ ∃ u ∈ us, p.1 = u.uid ∧ p.2 ∈ u.elems := by
  induction us with
  | nil => simp [toPairsL]
  | cons u us ih =>
    simp only [toPairsL, Finset.mem_union, ih, mem_toPairsU, List.mem_cons]
    constructor
    · rintro (h | ⟨v, hv, h⟩)
      · exact ⟨u, Or.inl rfl, h⟩
      · exact ⟨v, Or.inr hv, h⟩
    · rintro ⟨v, (rfl | hv), h⟩
      · exact Or.inl h
      · exact Or.inr ⟨v, hv, h⟩

theorem mem_toPairs {s : MStructure} {p : Nat × Nat} :
    p ∈ toPairs s ↔ ∃ u ∈ s.units, p.1 = u.uid ∧ p.2 ∈ u.elems :=
  mem_toPairsL

theorem pair_eta {p : Nat × Nat} {a : Nat} (h : p.1 = a) : p = (a, p.2) := by
  cases p
  simpa using h

theorem mem_selPairsL {ss : List MStructure} {p : Nat × Nat} :
    p ∈ selPairsL ss ↔ ∃ s ∈ ss, p ∈ toPairs s := by
  induction ss with
  | nil => simp [selPairsL]
  | cons s ss ih =>
    simp only [selPairsL, Finset.mem_union, ih, List.mem_cons]
    constructor
    · rintro (h | ⟨t, ht, h⟩)
      · exact ⟨s, Or.inl rfl, h⟩
      · exact ⟨t, Or.inr ht, h⟩
    · rintro ⟨t, (rfl | ht), h⟩
      · exact Or.inl h
      · exact Or.inr ⟨t, ht, h⟩

theorem elementCount_eq_zero_toPairs {s : MStructure} (h : elementCount s = 0) :
    toPairs s = ∅ := by
  ext p
  simp only [Finset.not_mem_empty, iff_false, mem_toPairs]
  rintro ⟨u, hu, _, hp⟩
  have : u.elems.length = 0 := by
    have := List.sum_eq_zero_iff.mp h (u.elems.length)
      (List.mem_map.mpr ⟨u, hu, rfl⟩)
    exact this
  rw [List.length_eq_zero] at this
  rw [this] at hp
  exact absurd hp (List.not_mem_nil _)

/-- Does structure `s` contain element `e` of unit id `uid`? -/
def containsPair (s : MStructure) (uid e : Nat) : Bool :=
  s.units.any (fun u => u.uid == uid && decide (e ∈ u.elems))

theorem containsPair_iff {s : MStructure} {uid e : Nat} :
    containsPair s uid e = true ↔ (uid, e) ∈ toPairs s := by
  simp only [containsPair, List.any_eq_true, Bool.and_eq_true, beq_iff_eq,
    decide_eq_true_eq, mem_toPairs]
  constructor
  · rintro ⟨u, hu, h1, h2⟩
    exact ⟨u, hu, h1.symm, h2⟩
  · rintro ⟨u, hu, h1, h2⟩
    exact ⟨u, hu, h1.symm, h2⟩

/-- Keep, in each unit of `a`, the elements satisfying `keep`; drop units
left empty.  Common shape of the element-wise structure set operations. -/
def filterStructure (a : MStructure) (keep : MUnit → Nat → Bool) : MStructure :=
  ⟨a.units.filterMap (fun u =>
    let es := u.elems.filter (keep u)
    if es.isEmpty then none else some { u with elems := es })⟩

theorem mem_toPairs_filterStructure {a : MStructure} {keep : MUnit → Nat → Bool}
    {p : Nat × Nat} :
    p ∈ toPairs (filterStructure a keep) ↔
      ∃ u ∈ a.units, p.1 = u.uid ∧ p.2 ∈ u.elems ∧ keep u p.2 = true := by
  simp only [filterStructure, toPairs, mem_toPairsL, List.mem_filterMap]
  constructor
  · rintro ⟨v, ⟨u, hu, hv⟩, h1, h2⟩
    by_cases hes : (u.elems.filter (keep u)).isEmpty = true
    · rw [if_pos hes] at hv
      cases hv
    · rw [if_neg hes] at hv
      have hveq := Option.some.inj hv
      subst hveq
      simp only [List.mem_filter] at h2
      exact ⟨u, hu, by simpa using h1, h2.1, h2.2⟩
  · rintro ⟨u, hu, h1, h2, hk⟩
    have hmem : p.2 ∈ u.elems.filter (keep u) := List.mem_filter.mpr ⟨h2, hk⟩
    have hne : ¬((u.elems.filter (keep u)).isEmpty = true) := by
      intro habs
      rw [List.isEmpty_iff] at habs
      rw [habs] at hmem
      exact absurd hmem (List.not_mem_nil _)
    exact ⟨{ u with elems := u.elems.filter (keep u) },
      ⟨u, hu, by rw [if_neg hne]⟩, by simpa using h1, hmem⟩

/-- Modelled from the spec: `structureIntersect(a, b)`, the element-wise
intersection of two structures (keeps the units of `a`, restricted to the
elements also present in `b`; units left empty are dropped). -/
def structureIntersect (a b : MStructure) : MStructure :=
  filterStructure a (fun u e => containsPair b u.uid e)

/-- Modelled from the spec: `structureSubtract(a, b)`, the element-wise
difference of two structures. -/
def structureSubtract (a b : MStructure) : MStructure :=
  filterStructure a (fun u e => !containsPair b u.uid e)

theorem toPairs_structureIntersect (a b : MStructure) :
    toPairs (structureIntersect a b) = toPairs a ∩ toPairs b := by
  ext p
  rw [Finset.mem_inter, structureIntersect, mem_toPairs_filterStructure]
  constructor
  · rintro ⟨u, hu, h1, h2, hk⟩
    refine ⟨mem_toPairs.mpr ⟨u, hu, h1, h2⟩, ?_⟩
    have hb := containsPair_iff.mp hk
    have hp : p = (u.uid, p.2) := pair_eta h1
    rw [hp]
    exact hb
  · rintro ⟨ha, hb⟩
    obtain ⟨u, hu, h1, h2⟩ := mem_toPairs.mp ha
    refine ⟨u, hu, h1, h2, containsPair_iff.mpr ?_⟩
    have hp : (u.uid, p.2) = p := (pair_eta h1).symm
    rw [hp]
    exact hb

theorem toPairs_structureSubtract (a b : MStructure) :
    toPairs (structureSubtract a b) = toPairs a \ toPairs b := by
  ext p
  rw [Finset.mem_sdiff, structureSubtract, mem_toPairs_filterStructure]
  constructor
  · rintro ⟨u, hu, h1, h2, hk⟩
    refine ⟨mem_toPairs.mpr ⟨u, hu, h1, h2⟩, ?_⟩
    intro hb
    have hp : (u.uid, p.2) = p := (pair_eta h1).symm
    rw [← hp] at hb
    have := containsPair_iff.mpr hb
    rw [this] at hk
    cases hk
  · rintro ⟨ha, hb⟩
    obtain ⟨u, hu, h1, h2⟩ := mem_toPairs.mp ha
    refine ⟨u, hu, h1, h2, ?_⟩
    cases hc : containsPair b u.uid p.2 with
    | false => rfl
    | true =>
      exfalso
      apply hb
      have := containsPair_iff.mp hc
      have hp : p = (u.uid, p.2) := pair_eta h1
      rw [hp]
      exact this

/-- Merge one unit into an accumulated unit list, unioning element
sequences of units sharing an id (dedup, appended in order). -/
def addUnitMerge : List MUnit → MUnit → List MUnit
  | [], u => [u]
  | v :: rest, u =>
    if v.uid = u.uid then
      { v with elems := v.elems ++ u.elems.filter (fun e => !decide (e ∈ v.elems)) } :: rest
    else
      v :: addUnitMerge rest u

/-- Modelled from the spec: `StructureSelection.unionStructure` reduces all
structures of a selection into a single structure via element-wise union. -/
def unionStructureOf (sel : MSel) : MStructure :=
  ⟨(selStructures sel).foldl (fun acc s => s.units.foldl addUnitMerge acc) []⟩

theorem toPairsL_addUnitMerge (acc : List MUnit) (u : MUnit) :
    toPairsL (addUnitMerge acc u) = toPairsL acc ∪ toPairsU u := by
  induction acc with
  | nil => simp [addUnitMerge, toPairsL]
  | cons v rest ih =>
    by_cases h : v.uid = u.uid
    · simp only [addUnitMerge]
      rw [if_pos h]
      simp only [toPairsL]
      have hm : toPairsU { v with elems := v.elems ++ u.elems.filter (fun e => !decide (e ∈ v.elems)) }
          = toPairsU v ∪ toPairsU u := by
        ext p
        simp only [mem_toPairsU, Finset.mem_union, List.mem_append, List.mem_filter,
          Bool.not_eq_true', decide_eq_false_iff_not]
        constructor
        · rintro ⟨h1, (h2 | ⟨h2, _⟩)⟩
          · exact Or.inl ⟨h1, h2⟩
          · exact Or.inr ⟨by rw [h1, ← h], h2⟩
        · rintro (⟨h1, h2⟩ | ⟨h1, h2⟩)
          · exact ⟨h1, Or.inl h2⟩
          · refine ⟨by rw [h1, ← h], ?_⟩
            by_cases hv : p.2 ∈ v.elems
            · exact Or.inl hv
            · exact Or.inr ⟨h2, hv⟩
      rw [hm, Finset.union_assoc, Finset.union_comm (toPairsU u),
        ← Finset.union_assoc]
    · simp only [addUnitMerge, h, if_false, toPairsL, ih, Finset.union_assoc]

theorem toPairsL_foldl_addUnitMerge (us : List MUnit) (acc : List MUnit) :
    toPairsL (us.foldl addUnitMerge acc) = toPairsL acc ∪ toPairsL us := by
  induction us generalizing acc with
  | nil => simp [toPairsL]
  | cons u us ih =>
    simp only [List.foldl_cons, ih, toPairsL_addUnitMerge, toPairsL,
      Finset.union_assoc]

theorem toPairs_foldl_structures (ss : List MStructure) (acc : List MUnit) :
    toPairsL (ss.foldl (fun acc s => s.units.foldl addUnitMerge acc) acc)
      = toPairsL acc ∪ selPairsL ss := by
  induction ss generalizing acc with
  | nil => simp [selPairsL]
  | cons s ss ih =>
    simp only [List.foldl_cons, ih, toPairsL_foldl_addUnitMerge, selPairsL,
      toPairs, Finset.union_assoc]

theorem toPairs_unionStructureOf (sel : MSel) :
    toPairs (unionStructureOf sel) = selPairsL (selStructures sel) := by
  simp [unionStructureOf, toPairs, toPairs_foldl_structures, toPairsL]

/-- Modelled from the spec: the add operation of the unique selection
builders (`StructureSelection.UniqueBuilder.add`,
`UniqueStructuresBuilder.add`): append a structure unless an identical one
was already added. -/
def addUniqueStructure (acc : List MStructure) (s : MStructure) : List MStructure :=
  if s ∈ acc then acc else acc ++ [s]

theorem mem_addUniqueStructure {acc : List MStructure} {s t : MStructure} :
    t ∈ addUniqueStructure acc s ↔ t ∈ acc ∨ t = s := by
  by_cases h : s ∈ acc
  · simp only [addUniqueStructure, h, if_true]
    constructor
    · exact Or.inl
    · rintro (ht | rfl)
      · exact ht
      · exact h
  · simp [addUniqueStructure, h]

theorem selPairsL_append (l1 l2 : List MStructure) :
    selPairsL (l1 ++ l2) = selPairsL l1 ∪ selPairsL l2 := by
  induction l1 with
  | nil => simp [selPairsL]
  | cons a rest ih =>
    simp only [List.cons_append, selPairsL, List.append_eq, ih, Finset.union_assoc]

theorem selPairsL_addUniqueStructure (acc : List MStructure) (s : MStructure) :
    selPairsL (addUniqueStructure acc s) = selPairsL acc ∪ toPairs s := by
  by_cases h : s ∈ acc
  · simp only [addUniqueStructure, h, if_true]
    have hsub : toPairs s ⊆ selPairsL acc := by
      intro p hp
      exact mem_selPairsL.mpr ⟨s, h, hp⟩
    rw [Finset.union_eq_left.mpr hsub]
  · simp only [addUniqueStructure, h, if_false, selPairsL_append, selPairsL]
    rw [Finset.union_empty]

/-- Loop body of `querySelection`: for each structure of the target
selection, push it as input structure, evaluate the inner query, add every
resulting structure to the unique builder, pop, and check the deadline
every 10th structure.  A thrown error propagates immediately; note that,
matching the source, the pop is then skipped. -/
def qsGo (q : Query) : Ctx → List MStructure → Nat → List MStructure →
    Except QErr (List MStructure) × Ctx
  | ctx, [], _, acc => (Except.ok acc, ctx)
  | ctx, s :: rest, sI, acc =>
    let c0 := pushInput (tickItem ctx) s
    match q c0 with
    | (Except.error e, c1) => (Except.error e, c1)
    | (Except.ok innerSel, c1) =>
      let acc1 := (selStructures innerSel).foldl addUniqueStructure acc
      let c2 := popInput c1
      match (if sI % 10 = 0 then throwIfTimedOut c2 else (Except.ok (), c2)) with
      | (Except.error e, c3) => (Except.error e, c3)
      | (Except.ok _, c3) => qsGo q c3 rest (sI + 1) acc1

/-- `querySelection(selection, query)`. -/
def querySelectionEval (selection query : Query) : Query := fun ctx =>
  match selection ctx with
  | (Except.error e, c) => (Except.error e, c)
  | (Except.ok targetSel, c) =>
    if structureCount targetSel = 0 then (Except.ok targetSel, c)
    else
      match qsGo query c (selStructures targetSel) 0 [] with
      | (Except.error e, c') => (Except.error e, c')
      | (Except.ok acc, c') =>
        (Except.ok (MSel.sequence (inputStructure c) acc), c')

/-- Loop body of `intersectBy`: intersect each structure of the selection
with the union of the `by` selection, keep non-empty results (dedup), and
check the deadline every 50th structure. -/
def ibGo (unionBy : MStructure) : Ctx → List MStructure → Nat → List MStructure →
    Except QErr (List MStructure) × Ctx
  | ctx, [], _, acc => (Except.ok acc, ctx)
  | ctx, s :: rest, sI, acc =>
    let c0 := tickItem ctx
    let ii := structureIntersect unionBy s
    let acc1 := if elementCount ii ≠ 0 then addUniqueStructure acc ii else acc
    match (if sI % 50 = 0 then throwIfTimedOut c0 else (Except.ok (), c0)) with
    | (Except.error e, c1) => (Except.error e, c1)
    | (Except.ok _, c1) => ibGo unionBy c1 rest (sI + 1) acc1

/-- `intersectBy(query, by)`. -/
def intersectByEval (query bq : Query) : Query := fun ctx =>
  match query ctx with
  | (Except.error e, c) => (Except.error e, c)
  | (Except.ok selection, c) =>
    if structureCount selection = 0 then (Except.ok selection, c)
    else
      match bq c with
      | (Except.error e, c1) => (Except.error e, c1)
      | (Except.ok bySel, c1) =>
        if structureCount bySel = 0 then
          (Except.ok (selEmpty (inputStructure c1)), c1)
        else
          let unionBy := unionStructureOf bySel
          match ibGo unionBy c1 (selStructures selection) 0 [] with
          | (Except.error e, c2) => (Except.error e, c2)
          | (Except.ok acc, c2) =>
            (Except.ok (MSel.sequence (inputStructure c1) acc), c2)

/-- Loop body of `exceptBy`: subtract the union of the `by` selection from
each structure of the selection, keep non-empty differences (dedup), and
check the deadline every 50th structure. -/
def ebGo (subtractBy : MStructure) : Ctx → List MStructure → Nat → List MStructure →
    Except QErr (List MStructure) × Ctx
  | ctx, [], _, acc => (Except.ok acc, ctx)
  | ctx, s :: rest, sI, acc =>
    let c0 := tickItem ctx
    let diff := structureSubtract s subtractBy
    let acc1 := if elementCount diff ≠ 0 then addUniqueStructure acc diff else acc
    match (if sI % 50 = 0 then throwIfTimedOut c0 else (Except.ok (), c0)) with
    | (Except.error e, c1) => (Except.error e, c1)
    | (Except.ok _, c1) => ebGo subtractBy c1 rest (sI + 1) acc1

/-- `exceptBy(query, by)`. -/
def exceptByEval (query bq : Query) : Query := fun ctx =>
  match query ctx with
  | (Except.error e, c) => (Except.error e, c)
  | (Except.ok selection, c) =>
    if structureCount selection = 0 then (Except.ok selection, c)
    else
      match bq c with
      | (Except.error e, c1) => (Except.error e, c1)
      | (Except.ok bySel, c1) =>
        if structureCount bySel = 0 then
          (Except.ok (selEmpty (inputStructure c1)), c1)
        else
          let subtractBy := unionStructureOf bySel
          match ebGo subtractBy c1 (selStructures selection) 0 [] with
          | (Except.error e, c2) => (Except.error e, c2)
          | (Except.ok acc, c2) =>
            (Except.ok (MSel.sequence (inputStructure c1) acc), c2)

/-- `union(query)`: reduce the selection of the inner query to a single
structure (via a linear builder holding one structure). -/
def unionEval (query : Query) : Query := fun ctx =>
  match query ctx with
  | (Except.error e, c) => (Except.error e, c)
  | (Except.ok sel, c) =>
    (Except.ok (MSel.sequence (inputStructure c) [unionStructureOf sel]), c)

/-- The element range of residue `rI` in an offset table:
`[offsets[rI], offsets[rI+1])`. -/
def residueRange (offsets : List Nat) (rI : Nat) : Finset Nat :=
  Finset.Ico (offsets.getD rI 0) (offsets.getD (rI + 1) 0)

/-- The residues touched by an element set: those whose range contains at
least one of the elements.  This is the semantics of the
`Segmentation.transientSegments` iterator (modelled from the spec: segment
boundaries of the residue-offset table intersected with the included
elements). -/
def touchedResidues (offsets : List Nat) (es : Finset Nat) : Finset Nat :=
  (Finset.range (offsets.length - 1)).filter
    (fun rI => ((residueRange offsets rI) ∩ es).Nonempty)

/-- The expanded element set: the union of the full ranges of all touched
residues. -/
def expandElemsF (offsets : List Nat) (es : Finset Nat) : Finset Nat :=
  (touchedResidues offsets es).biUnion (residueRange offsets)

/-- The ascending, duplicate-free element sequence of a finite element
set: the committed form of a builder's per-unit accumulation (spec 4.1). -/
def sortedElems (F : Finset Nat) : List Nat :=
  (List.range (F.fold max 0 id + 1)).filter (fun j => decide (j ∈ F))

theorem mem_sortedElems {F : Finset Nat} {j : Nat} :
    j ∈ sortedElems F ↔ j ∈ F := by
  simp only [sortedElems, List.mem_filter, List.mem_range, decide_eq_true_eq]
  constructor
  · exact fun h => h.2
  · intro h
    refine ⟨?_, h⟩
    have : j ≤ F.fold max 0 id := (Finset.le_fold_max j).mpr (Or.inr ⟨j, h, le_rfl⟩)
    omega

theorem toFinset_sortedElems (F : Finset Nat) : (sortedElems F).toFinset = F := by
  ext j
  rw [List.mem_toFinset, mem_sortedElems]

theorem sortedElems_ne_nil_of_mem {F : Finset Nat} {e : Nat} (h : e ∈ F) :
    (sortedElems F).isEmpty = false := by
  have hm : e ∈ sortedElems F := mem_sortedElems.mpr h
  cases hs : sortedElems F with
  | nil => rw [hs] at hm; exact absurd hm (List.not_mem_nil _)
  | cons x xs => simp

/-- The committed ascending element sequence of one source unit from a
globally deduplicated hit set of (unit id, element) pairs. -/
def hitElems (hits : Finset (Nat × Nat)) (uid : Nat) : List Nat :=
  sortedElems ((hits.filter (fun p => p.1 = uid)).image (fun p => p.2))

/-- Whole-residue expansion of one atomic unit's element sequence: every
`[offsets[rI], offsets[rI+1])` range of a touched residue is appended via
the subset builder, which commits the unit as a deduplicated ascending
sequence (spec 4.1). -/
def expandUnitElems (offsets : List Nat) (elems : List Nat) : List Nat :=
  sortedElems (expandElemsF offsets elems.toFinset)

/-- Per-unit action of `getWholeResidues`: non-atomic units are copied
unchanged (`builder.setUnit`); atomic units get their element sequence
expanded to whole residues.  The unit id and model data are those of the
matching source unit, which is shared by reference with the input unit, so
the builder's source-keyed reconstruction leaves them unchanged. -/
def expandUnit (u : MUnit) : MUnit :=
  match u.kind with
  | MKind.atomic => { u with elems := expandUnitElems u.residueOffsets u.elems }
  | _ => u

/-- Unit loop of `getWholeResidues`: one item per unit; after each atomic
unit the deadline is checked (`ctx.throwIfTimedOut()`); the `continue` for
non-atomic units skips the check. -/
def wrGo : Ctx → List MUnit → Except QErr (List MUnit) × Ctx
  | ctx, [] => (Except.ok [], ctx)
  | ctx, u :: rest =>
    match u.kind with
    | MKind.atomic =>
      let u' := expandUnit u
      let c0 := tickItem ctx
      match throwIfTimedOut c0 with
      | (Except.error e, c1) => (Except.error e, c1)
      | (Except.ok _, c1) =>
        match wrGo c1 rest with
        | (Except.error e, c2) => (Except.error e, c2)
        | (Except.ok us, c2) => (Except.ok (u' :: us), c2)
    | _ =>
      let c0 := tickItem ctx
      match wrGo c0 rest with
      | (Except.error e, c1) => (Except.error e, c1)
      | (Except.ok us, c1) => (Except.ok (u :: us), c1)

/-- `getWholeResidues(ctx, source, structure)`.  The `source` parameter is
the structure the subset builder is created over; since the units of
`structure` are shared by reference with `source`, the reconstruction by
unit id is the per-unit transformation `expandUnit`. -/
def getWholeResiduesEval (ctx : Ctx) (source struct : MStructure) :
    Except QErr MStructure × Ctx :=
  let _ := source
  match wrGo ctx struct.units with
  | (Except.error e, c) => (Except.error e, c)
  | (Except.ok us, c) => (Except.ok ⟨us⟩, c)

/-- Apply a fallible per-structure transformation to every structure of a
list, adding results to a `UniqueStructuresBuilder` (dedup by structural
identity, modelled from the spec). -/
def mapUniqueGo (f : Ctx → MStructure → Except QErr MStructure × Ctx) :
    Ctx → List MStructure → List MStructure →
    Except QErr (List MStructure) × Ctx
  | ctx, [], acc => (Except.ok acc, ctx)
  | ctx, s :: rest, acc =>
    match f ctx s with
    | (Except.error e, c) => (Except.error e, c)
    | (Except.ok s', c) => mapUniqueGo f c rest (addUniqueStructure acc s')

/-- `wholeResidues(query)`: singleton selections stay singletons; array
selections are rebuilt through a `UniqueStructuresBuilder`. -/
def wholeResiduesEval (query : Query) : Query := fun ctx =>
  match query ctx with
  | (Except.error e, c) => (Except.error e, c)
  | (Except.ok inner, c) =>
    match inner with
    | MSel.singleton _ s =>
      match getWholeResiduesEval c (inputStructure c) s with
      | (Except.error e, c1) => (Except.error e, c1)
      | (Except.ok s', c1) =>
        (Except.ok (MSel.singleton (inputStructure c) s'), c1)
    | MSel.sequence _ ss =>
      match mapUniqueGo (fun c' s => getWholeResiduesEval c' (inputStructure c') s)
          c ss [] with
      | (Except.error e, c1) => (Except.error e, c1)
      | (Except.ok acc, c1) =>
        (Except.ok (MSel.sequence (inputStructure c) acc), c1)

/-- `IncludeSurroundingsParams`: required radius and optional
`wholeResidues` flag (absent models the `undefined` field, coerced with
`!!`). -/
structure ISParams where
  radius : Int
  wholeResidues : Option Bool
deriving DecidableEq, Repr

/-- A spatial index (`source.lookup3d`), modelled from the spec: given a
point and radius, it reports the (unit id, element) hits within radius of
the point; `findIntoBuilder` feeds these into the unique-subset builder,
which owns deduplication. -/
abbrev Lookup3d := Int → Int → Int → Int → Finset (Nat × Nat)

/-- Per-element 3D conformation accessors (`unit.conformation.x/y/z`),
modelled as a function from unit id and element to coordinates; the
conformation is shared model data keyed by the unit. -/
abbrev Conformation := Nat → Nat → Int × Int × Int

/-- Element loop of `getIncludeSurroundings` for one unit: query the
spatial index at every element's coordinates, feeding hits into the
globally deduplicating builder (a hit set). -/
def elemsLookup (lookup : Lookup3d) (conf : Conformation) (uid : Nat) (r : Int) :
    Ctx → List Nat → Finset (Nat × Nat) → Finset (Nat × Nat) × Ctx
  | ctx, [], hits => (hits, ctx)
  | ctx, e :: rest, hits =>
    let xyz := conf uid e
    let c0 := { ctx with lookupCalls := ctx.lookupCalls + 1 }
    elemsLookup lookup conf uid r c0 rest (hits ∪ lookup xyz.1 xyz.2.1 xyz.2.2 r)

/-- Unit loop of `getIncludeSurroundings`: for each unit of the input
structure, look up surroundings of all its elements, then check the
deadline. -/
def isUnitsGo (lookup : Lookup3d) (conf : Conformation) (r : Int) :
    Ctx → List MUnit → Finset (Nat × Nat) → Except QErr (Finset (Nat × Nat)) × Ctx
  | ctx, [], hits => (Except.ok hits, ctx)
  | ctx, u :: rest, hits =>
    let step := elemsLookup lookup conf u.uid r ctx u.elems hits
    let c0 := tickItem step.2
    match throwIfTimedOut c0 with
    | (Except.error e, c1) => (Except.error e, c1)
    | (Except.ok _, c1) => isUnitsGo lookup conf r c1 rest step.1

/-- Modelled from the spec: `StructureUniqueSubsetBuilder.getStructure()`,
resolving the globally deduplicated hits against the source structure:
each touched source unit is committed with its hit elements as an
ascending sequence. -/
def builderGetStructure (source : MStructure) (hits : Finset (Nat × Nat)) :
    MStructure :=
  ⟨source.units.filterMap (fun su =>
    let es := hitElems hits su.uid
    if es.isEmpty then none else some { su with elems := es })⟩

/-- `getIncludeSurroundings(ctx, source, structure, params)`. -/
def getIncludeSurroundingsEval (lookup : Lookup3d) (conf : Conformation)
    (ctx : Ctx) (source struct : MStructure) (params : ISParams) :
    Except QErr MStructure × Ctx :=
  match isUnitsGo lookup conf params.radius ctx struct.units ∅ with
  | (Except.error e, c) => (Except.error e, c)
  | (Except.ok hits, c) =>
    if params.wholeResidues.getD false then
      getWholeResiduesEval c source (builderGetStructure source hits)
    else
      (Except.ok (builderGetStructure source hits), c)

/-- `includeSurroundings(query, params)`: singleton selections stay
singletons; array selections are rebuilt through a
`UniqueStructuresBuilder`. -/
def includeSurroundingsEval (lookup : Lookup3d) (conf : Conformation)
    (query : Query) (params : ISParams) : Query := fun ctx =>
  match query ctx with
  | (Except.error e, c) => (Except.error e, c)
  | (Except.ok inner, c) =>
    match inner with
    | MSel.singleton _ s =>
      match getIncludeSurroundingsEval lookup conf c (inputStructure c) s params with
      | (Except.error e, c1) => (Except.error e, c1)
      | (Except.ok surr, c1) =>
        (Except.ok (MSel.singleton (inputStructure c) surr), c1)
    | MSel.sequence _ ss =>
      match mapUniqueGo
          (fun c' s => getIncludeSurroundingsEval lookup conf c' (inputStructure c') s params)
          c ss [] with
      | (Except.error e, c1) => (Except.error e, c1)
      | (Except.ok acc, c1) =>
        (Except.ok (MSel.sequence (inputStructure c) acc), c1)

/-- The `propertyToStructureIndexMap`: an association of property values
to the `UniqueArray` of selection indices that claimed them. -/
abbrev PMap (V : Type) := List (V × List Nat)

/-- Look a property value up in the map (`map.get(p)` after `map.has(p)`). -/
def pmapFind {V : Type} [DecidableEq V] : PMap V → V → Option (List Nat)
  | [], _ => none
  | (w, arr) :: rest, p => if w = p then some arr else pmapFind rest p

/-- `UniqueArray.add(arr, sI, sI)` on the entry for `p`, creating the
entry if absent. -/
def pmapAdd {V : Type} [DecidableEq V] : PMap V → V → Nat → PMap V
  | [], p, sI => [(p, [sI])]
  | (w, arr) :: rest, p, sI =>
    if w = p then (w, if sI ∈ arr then arr else arr ++ [sI]) :: rest
    else (w, arr) :: pmapAdd rest p sI

/-- A `StructureSubsetBuilder` (`ctx.inputStructure.subsetBuilder(true)`):
per unit id, the list of elements added so far, in insertion order. -/
abbrev SubsetBuilder := List (Nat × List Nat)

/-- `builder.addToUnit(uid, e)`: plain append (the subset builder does not
deduplicate). -/
def addToUnit : SubsetBuilder → Nat → Nat → SubsetBuilder
  | [], uid, e => [(uid, [e])]
  | (w, es) :: rest, uid, e =>
    if w = uid then (w, es ++ [e]) :: rest
    else (w, es) :: addToUnit rest uid e

/-- Find the accumulated element list of a unit id in a subset builder. -/
def builderFind : SubsetBuilder → Nat → Option (List Nat)
  | [], _ => none
  | (w, es) :: rest, uid => if w = uid then some es else builderFind rest uid

/-- `builder.getStructure()` of a `StructureSubsetBuilder` over the input
structure: each unit of the input structure that received elements is
committed with them. -/
def subsetBuilderStructure (input : MStructure) (b : SubsetBuilder) : MStructure :=
  ⟨input.units.filterMap (fun u =>
    match builderFind b u.uid with
    | some es => some { u with elems := es }
    | none => none)⟩

/-- First-pass scan of the elements of one unit of a selection structure:
set the cursor, evaluate the property, add the selection index to the
value's claim list. -/
def epScanElems {V : Type} [DecidableEq V] (prop : PropFn V) (u : MUnit) (sI : Nat) :
    Ctx → List Nat → PMap V → PMap V × Ctx
  | ctx, [], m => (m, ctx)
  | ctx, e :: rest, m =>
    let c0 := setCursorElem ctx e
    let p := prop u e
    epScanElems prop u sI c0 rest (pmapAdd m p sI)

/-- First-pass scan of the units of one selection structure. -/
def epScanUnits {V : Type} [DecidableEq V] (prop : PropFn V) (sI : Nat) :
    Ctx → List MUnit → PMap V → PMap V × Ctx
  | ctx, [], m => (m, ctx)
  | ctx, u :: rest, m =>
    let c0 := setCursorUnit ctx u
    let step := epScanElems prop u sI c0 u.elems m
    epScanUnits prop sI step.2 rest step.1

/-- First pass of `expandProperty`: evaluate the property for every atom
of every structure of the inner selection, building the value-to-indices
map and one fresh subset builder per structure; check the deadline every
10th structure. -/
def epPass1 {V : Type} [DecidableEq V] (prop : PropFn V) :
    Ctx → List MStructure → Nat → PMap V → List SubsetBuilder →
    Except QErr (PMap V × List SubsetBuilder) × Ctx
  | ctx, [], _, m, bs => (Except.ok (m, bs), ctx)
  | ctx, s :: rest, sI, m, bs =>
    let c0 := tickItem ctx
    let step := epScanUnits prop sI c0 s.units m
    let bs1 := bs ++ [[]]
    match (if sI % 10 = 0 then throwIfTimedOut step.2 else (Except.ok (), step.2)) with
    | (Except.error e, c1) => (Except.error e, c1)
    | (Except.ok _, c1) => epPass1 prop c1 rest (sI + 1) step.1 bs1

/-- The inner `for (_sI = 0; _sI < indices.length; _sI++)` loop of the
second pass: the body dereferences `builders[indices[i]]` (the source's
indexing slip: `i` is the element index, not `_sI`), so every iteration
adds the element to the same builder slot; when `i` is out of the bounds
of `indices`, `indices[i]` is `undefined` and the dereference throws a
`TypeError`. -/
def epAddRepeat : Nat → List SubsetBuilder → Nat → Nat → Nat → List SubsetBuilder
  | 0, bs, _, _, _ => bs
  | n + 1, bs, bI, uid, e => epAddRepeat n (bs.modify (fun b => addToUnit b uid e) bI) bI uid e

/-- Element loop of the second pass over one unit of the input structure
(elements paired with their index `i`). -/
def epElems {V : Type} [DecidableEq V] (prop : PropFn V) (m : PMap V) (u : MUnit) :
    Ctx → List (Nat × Nat) → List SubsetBuilder →
    Except QErr (List SubsetBuilder) × Ctx
  | ctx, [], bs => (Except.ok bs, ctx)
  | ctx, (i, e) :: rest, bs =>
    let c0 := setCursorElem ctx e
    let p := prop u e
    match pmapFind m p with
    | none => epElems prop m u c0 rest bs
    | some indices =>
      if indices.length = 0 then epElems prop m u c0 rest bs
      else
        match indices.get? i with
        | none => (Except.error QErr.typeError, c0)
        | some bI => epElems prop m u c0 rest (epAddRepeat indices.length bs bI u.uid e)

/-- Second pass of `expandProperty`: walk every unit of the entire input
structure (one item per unit, no deadline check), appending each atom
whose property value was claimed. -/
def epPass2 {V : Type} [DecidableEq V] (prop : PropFn V) (m : PMap V) :
    Ctx → List MUnit → List SubsetBuilder →
    Except QErr (List SubsetBuilder) × Ctx
  | ctx, [], bs => (Except.ok bs, ctx)
  | ctx, u :: rest, bs =>
    let c0 := tickItem (setCursorUnit ctx u)
    match epElems prop m u c0 u.elems.enum bs with
    | (Except.error e, c1) => (Except.error e, c1)
    | (Except.ok bs1, c1) => epPass2 prop m c1 rest bs1

/-- `expandProperty(query, property)`. -/
def expandPropertyEval {V : Type} [DecidableEq V] (query : Query) (prop : PropFn V) :
    Query := fun ctx =>
  match query ctx with
  | (Except.error e, c) => (Except.error e, c)
  | (Except.ok src, c) =>
    let c0 := pushCurrentElement c
    match epPass1 prop c0 (selStructures src) 0 [] [] with
    | (Except.error e, c1) => (Except.error e, c1)
    | (Except.ok (m, bs), c1) =>
      match epPass2 prop m c1 (inputStructure c1).units bs with
      | (Except.error e, c2) => (Except.error e, c2)
      | (Except.ok bs1, c2) =>
        let c3 := popCurrentElement c2
        (Except.ok (MSel.sequence (inputStructure c3)
          ((bs1.map (subsetBuilderStructure (inputStructure c3))).foldl
            addUniqueStructure [])), c3)

/-- Auxiliary fold for `maxRun`: current run of items since the last
check, and maximum run seen so far. -/
def maxRunAux : List Event → Nat → Nat → Nat
  | [], _, mx => mx
  | Event.item :: t, cur, mx => maxRunAux t (cur + 1) (max mx (cur + 1))
  | Event.check :: t, _, mx => maxRunAux t 0 mx

/-- The largest number of consecutive items processed without an
intervening deadline check in an event trace. -/
def maxRun (tr : List Event) : Nat := maxRunAux tr 0 0

/-- `gapOK k b tr`: trace `tr` never runs more than `b` items before its
first check, nor more than `k` items between later consecutive checks. -/
def gapOK (k : Nat) : Nat → List Event → Prop
  | _, [] => True
  | b, Event.item :: t => 0 < b ∧ gapOK k (b - 1) t
  | _, Event.check :: t => gapOK k k t

/-- The trace of a loop that processes `n` items starting at index `sI`,
checking the deadline after every item whose index is divisible by `k`. -/
def strideTrace (k : Nat) : Nat → Nat → List Event
  | _, 0 => []
  | sI, n + 1 =>
    Event.item :: ((if sI % k = 0 then [Event.check] else []) ++ strideTrace k (sI + 1) n)

theorem maxRunAux_le {k M : Nat} :
    ∀ (tr : List Event) (b cur mx : Nat), gapOK k b tr →
      mx ≤ M → cur + b ≤ M → k ≤ M → maxRunAux tr cur mx ≤ M := by
  intro tr
  induction tr with
  | nil =>
    intro b cur mx _ h1 _ _
    simpa [maxRunAux] using h1
  | cons ev t ih =>
    intro b cur mx hg h1 h2 h3
    cases ev with
    | item =>
      simp only [gapOK] at hg
      obtain ⟨hb, hg'⟩ := hg
      simp only [maxRunAux]
      exact ih (b - 1) (cur + 1) (max mx (cur + 1)) hg'
        (Nat.max_le.mpr ⟨h1, by omega⟩) (by omega) h3
    | check =>
      simp only [gapOK] at hg
      simp only [maxRunAux]
      exact ih k 0 mx hg h1 (by omega) h3

theorem maxRun_le_of_gapOK {k b : Nat} {tr : List Event}
    (hg : gapOK k b tr) (hbk : b ≤ k) : maxRun tr ≤ k :=
  maxRunAux_le tr b 0 0 hg (Nat.zero_le _) (by omega) le_rfl

theorem gapOK_strideTrace {k : Nat} (hk : 0 < k) :
    ∀ (n sI : Nat), gapOK k (k - (sI + (k - 1)) % k) (strideTrace k sI n) := by
  intro n
  induction n with
  | zero =>
    intro sI
    simp [strideTrace, gapOK]
  | succ n ih =>
    intro sI
    have hmod : (sI + (k - 1)) % k = (if sI % k = 0 then k - 1 else sI % k - 1) := by
      by_cases h0 : sI % k = 0
      · rw [if_pos h0, Nat.add_mod, h0, Nat.zero_add, Nat.mod_mod_of_dvd _ dvd_rfl]
        exact Nat.mod_eq_of_lt (by omega)
      · rw [if_neg h0, Nat.add_mod]
        have hlt : sI % k < k := Nat.mod_lt _ hk
        have hk1 : (k - 1) % k = k - 1 := Nat.mod_eq_of_lt (by omega)
        rw [hk1]
        have harg : sI % k + (k - 1) = (sI % k - 1) + k := by omega
        rw [harg, Nat.add_mod_right]
        exact Nat.mod_eq_of_lt (by omega)
    have hnext : (sI + 1 + (k - 1)) % k = sI % k := by
      have harg : sI + 1 + (k - 1) = sI + k := by omega
      rw [harg, Nat.add_mod_right]
    by_cases h0 : sI % k = 0
    · simp only [strideTrace, if_pos h0, List.cons_append, List.nil_append]
      refine ⟨by rw [hmod, if_pos h0]; omega, ?_⟩
      simp only [gapOK]
      have := ih (sI + 1)
      rwa [hnext, h0, Nat.sub_zero] at this
    · simp only [strideTrace, if_neg h0, List.nil_append]
      have hlt : sI % k < k := Nat.mod_lt _ hk
      refine ⟨by rw [hmod, if_neg h0]; omega, ?_⟩
      have := ih (sI + 1)
      rw [hnext] at this
      have heq : k - (sI + (k - 1)) % k - 1 = k - sI % k := by
        rw [hmod, if_neg h0]
        omega
      rwa [heq]

theorem maxRun_strideTrace_le {k : Nat} (hk : 0 < k) (sI n : Nat) :
    maxRun (strideTrace k sI n) ≤ k :=
  maxRun_le_of_gapOK (gapOK_strideTrace hk n sI) (by omega)

theorem maxRunAux_replicate_ge (n : Nat) (hn : 1 ≤ n) :
    ∀ (cur mx : Nat), cur + n ≤ maxRunAux (List.replicate n Event.item) cur mx := by
  induction n with
  | zero => omega
  | succ n ih =>
    intro cur mx
    simp only [List.replicate_succ, maxRunAux]
    by_cases h : 1 ≤ n
    · have := ih h (cur + 1) (max mx (cur + 1))
      omega
    · have hn0 : n = 0 := by omega
      subst hn0
      simp only [List.replicate_zero, maxRunAux]
      omega

theorem maxRun_replicate_ge (n : Nat) :
    n ≤ maxRun (List.replicate n Event.item) := by
  cases n with
  | zero => omega
  | succ n =>
    have := maxRunAux_replicate_ge (n + 1) (by omega) 0 0
    simpa [maxRun] using this

/-- A concrete clean evaluation context over input structure `inp`. -/
def cinit (inp : MStructure) : Ctx :=
  ⟨[inp], ⟨none, none⟩, [], false, [], 0⟩

/-- A concrete context whose deadline has already passed. -/
def cexpired (inp : MStructure) : Ctx :=
  ⟨[inp], ⟨none, none⟩, [], true, [], 0⟩

/-- C5: if the first query of `querySelection`, `intersectBy` or `exceptBy`
evaluates to a selection with zero structures, the combinator returns that
empty selection unchanged (hence with the association the first query gave
it, the current input structure) and the result does not depend on the
second query (it is never evaluated); and if the `by` query of
`intersectBy`/`exceptBy` evaluates to zero structures, the result is the
empty-but-typed selection over the current input structure. -/
theorem c5_empty_short_circuit :
    (∀ (selq q : Query) (ctx ctx₁ : Ctx) (s₀ : MSel),
      selq ctx = (Except.ok s₀, ctx₁) → structureCount s₀ = 0 →
      querySelectionEval selq q ctx = (Except.ok s₀, ctx₁) ∧
      (∀ q' : Query, querySelectionEval selq q' ctx = (Except.ok s₀, ctx₁)))
  ∧ (∀ (A B : Query) (ctx ctx₁ : Ctx) (s₀ : MSel),
      A ctx = (Except.ok s₀, ctx₁) → structureCount s₀ = 0 →
      intersectByEval A B ctx = (Except.ok s₀, ctx₁) ∧
      exceptByEval A B ctx = (Except.ok s₀, ctx₁) ∧
      (∀ B' : Query, intersectByEval A B' ctx = (Except.ok s₀, ctx₁) ∧
        exceptByEval A B' ctx = (Except.ok s₀, ctx₁)))
  ∧ (∀ (A B : Query) (ctx ctx₁ ctx₂ : Ctx) (selA selB : MSel),
      A ctx = (Except.ok selA, ctx₁) → structureCount selA ≠ 0 →
      B ctx₁ = (Except.ok selB, ctx₂) → structureCount selB = 0 →
      intersectByEval A B ctx = (Except.ok (selEmpty (inputStructure ctx₂)), ctx₂) ∧
      exceptByEval A B ctx = (Except.ok (selEmpty (inputStructure ctx₂)), ctx₂)) := by
  refine ⟨?_, ?_, ?_⟩
  · intro selq q ctx ctx₁ s₀ hA hc
    constructor
    · simp [querySelectionEval, hA, hc]
    · intro q'
      simp [querySelectionEval, hA, hc]
  · intro A B ctx ctx₁ s₀ hA hc
    refine ⟨by simp [intersectByEval, hA, hc], by simp [exceptByEval, hA, hc], ?_⟩
    intro B'
    exact ⟨by simp [intersectByEval, hA, hc], by simp [exceptByEval, hA, hc]⟩
  · intro A B ctx ctx₁ ctx₂ selA selB hA hcA hB hcB
    exact ⟨by simp [intersectByEval, hA, hcA, hB, hcB],
      by simp [exceptByEval, hA, hcA, hB, hcB]⟩

/-- A concrete query returning an empty sequence selection. -/
def qEmptySel : Query := fun c => (Except.ok (MSel.sequence ⟨[]⟩ []), c)

/-- A concrete query returning a one-structure sequence selection. -/
def qOneSel : Query := fun c => (Except.ok (MSel.sequence ⟨[]⟩ [⟨[]⟩]), c)

/-- Witness for C5 at concrete queries: an empty outer selection
short-circuits `querySelection`, `intersectBy` and `exceptBy`, and an
empty `by` selection yields the empty-but-typed selection. -/
theorem c5_empty_short_circuit_witness :
    querySelectionEval qEmptySel qOneSel (cinit ⟨[]⟩)
      = (Except.ok (MSel.sequence ⟨[]⟩ []), cinit ⟨[]⟩) ∧
    intersectByEval qEmptySel qOneSel (cinit ⟨[]⟩)
      = (Except.ok (MSel.sequence ⟨[]⟩ []), cinit ⟨[]⟩) ∧
    intersectByEval qOneSel qEmptySel (cinit ⟨[]⟩)
      = (Except.ok (selEmpty (inputStructure (cinit ⟨[]⟩))), cinit ⟨[]⟩) := by
  refine ⟨?_, ?_, ?_⟩
  · exact (c5_empty_short_circuit.1 qEmptySel qOneSel (cinit ⟨[]⟩) (cinit ⟨[]⟩)
      (MSel.sequence ⟨[]⟩ []) rfl (by decide)).1
  · exact (c5_empty_short_circuit.2.1 qEmptySel qOneSel (cinit ⟨[]⟩) (cinit ⟨[]⟩)
      (MSel.sequence ⟨[]⟩ []) rfl (by decide)).1
  · exact (c5_empty_short_circuit.2.2 qOneSel qEmptySel (cinit ⟨[]⟩) (cinit ⟨[]⟩)
      (cinit ⟨[]⟩) (MSel.sequence ⟨[]⟩ [⟨[]⟩]) (MSel.sequence ⟨[]⟩ []) rfl
      (by decide) rfl (by decide)).1

theorem selStructures_eq_nil_of_count_zero {sel : MSel}
    (h : structureCount sel = 0) : selStructures sel = [] := by
  cases sel with
  | singleton src s => simp [structureCount] at h
  | sequence src ss =>
    simp only [structureCount] at h
    simp [selStructures, List.length_eq_zero.mp h]

theorem ibGo_mem {uB : MStructure} :
    ∀ (l : List MStructure) (ctx : Ctx) (sI : Nat) (acc res : List MStructure)
      (c : Ctx), ibGo uB ctx l sI acc = (Except.ok res, c) →
      ∀ t ∈ res, t ∈ acc ∨ ∃ s ∈ l, t = structureIntersect uB s := by
  intro l
  induction l with
  | nil =>
    intro ctx sI acc res c h t ht
    simp only [ibGo, Prod.mk.injEq] at h
    obtain ⟨h1, _⟩ := h
    cases h1
    exact Or.inl ht
  | cons s rest ih =>
    intro ctx sI acc res c h t ht
    simp only [ibGo] at h
    split at h
    · exact absurd h (by simp)
    · rename_i heq
      have := ih _ _ _ _ _ h t ht
      rcases this with hacc | ⟨s', hs', hts'⟩
      · by_cases hne : elementCount (structureIntersect uB s) ≠ 0
        · rw [if_pos hne] at hacc
          rcases mem_addUniqueStructure.mp hacc with h2 | h2
          · exact Or.inl h2
          · exact Or.inr ⟨s, List.mem_cons_self _ _, h2⟩
        · rw [if_neg hne] at hacc
          exact Or.inl hacc
      · exact Or.inr ⟨s', List.mem_cons_of_mem _ hs', hts'⟩

theorem ebGo_mem {uB : MStructure} :
    ∀ (l : List MStructure) (ctx : Ctx) (sI : Nat) (acc res : List MStructure)
      (c : Ctx), ebGo uB ctx l sI acc = (Except.ok res, c) →
      ∀ t ∈ res, t ∈ acc ∨ ∃ s ∈ l, t = structureSubtract s uB := by
  intro l
  induction l with
  | nil =>
    intro ctx sI acc res c h t ht
    simp only [ebGo, Prod.mk.injEq] at h
    obtain ⟨h1, _⟩ := h
    cases h1
    exact Or.inl ht
  | cons s rest ih =>
    intro ctx sI acc res c h t ht
    simp only [ebGo] at h
    split at h
    · exact absurd h (by simp)
    · rename_i heq
      have := ih _ _ _ _ _ h t ht
      rcases this with hacc | ⟨s', hs', hts'⟩
      · by_cases hne : elementCount (structureSubtract s uB) ≠ 0
        · rw [if_pos hne] at hacc
          rcases mem_addUniqueStructure.mp hacc with h2 | h2
          · exact Or.inl h2
          · exact Or.inr ⟨s, List.mem_cons_self _ _, h2⟩
        · rw [if_neg hne] at hacc
          exact Or.inl hacc
      · exact Or.inr ⟨s', List.mem_cons_of_mem _ hs', hts'⟩

/-- Every structure of an `ok` `intersectBy` result is the intersection of
the `by` union with some structure of the first selection. -/
theorem intersectByEval_mem {A B : Query} {ctx ctxA ctxB ctxI : Ctx}
    {selA selB outI : MSel}
    (hA : A ctx = (Except.ok selA, ctxA))
    (hB : B ctxA = (Except.ok selB, ctxB))
    (hI : intersectByEval A B ctx = (Except.ok outI, ctxI)) :
    ∀ t ∈ selStructures outI,
      ∃ s ∈ selStructures selA, t = structureIntersect (unionStructureOf selB) s := by
  intro t ht
  simp only [intersectByEval, hA] at hI
  by_cases hc : structureCount selA = 0
  · rw [if_pos hc] at hI
    simp only [Prod.mk.injEq] at hI
    obtain ⟨h1, _⟩ := hI
    cases h1
    rw [selStructures_eq_nil_of_count_zero hc] at ht
    exact absurd ht (List.not_mem_nil _)
  · rw [if_neg hc] at hI
    simp only [hB] at hI
    by_cases hcb : structureCount selB = 0
    · rw [if_pos hcb] at hI
      simp only [Prod.mk.injEq] at hI
      obtain ⟨h1, _⟩ := hI
      cases h1
      simp only [selEmpty, selStructures] at ht
      exact absurd ht (List.not_mem_nil _)
    · rw [if_neg hcb] at hI
      split at hI
      · exact absurd hI (by simp)
      · rename_i acc c2 heq
        simp only [Prod.mk.injEq] at hI
        obtain ⟨h1, _⟩ := hI
        cases h1
        simp only [selStructures] at ht
        have := ibGo_mem _ _ _ _ _ _ heq t ht
        rcases this with habs | hgood
        · exact absurd habs (List.not_mem_nil _)
        · exact hgood

/-- Every structure of an `ok` `exceptBy` result is the difference of some
structure of the first selection and the `by` union. -/
theorem exceptByEval_mem {A B : Query} {ctx ctxA ctxB ctxE : Ctx}
    {selA selB outE : MSel}
    (hA : A ctx = (Except.ok selA, ctxA))
    (hB : B ctxA = (Except.ok selB, ctxB))
    (hE : exceptByEval A B ctx = (Except.ok outE, ctxE)) :
    ∀ t ∈ selStructures outE,
      ∃ s ∈ selStructures selA, t = structureSubtract s (unionStructureOf selB) := by
  intro t ht
  simp only [exceptByEval, hA] at hE
  by_cases hc : structureCount selA = 0
  · rw [if_pos hc] at hE
    simp only [Prod.mk.injEq] at hE
    obtain ⟨h1, _⟩ := hE
    cases h1
    rw [selStructures_eq_nil_of_count_zero hc] at ht
    exact absurd ht (List.not_mem_nil _)
  · rw [if_neg hc] at hE
    simp only [hB] at hE
    by_cases hcb : structureCount selB = 0
    · rw [if_pos hcb] at hE
      simp only [Prod.mk.injEq] at hE
      obtain ⟨h1, _⟩ := hE
      cases h1
      simp only [selEmpty, selStructures] at ht
      exact absurd ht (List.not_mem_nil _)
    · rw [if_neg hcb] at hE
      split at hE
      · exact absurd hE (by simp)
      · rename_i acc c2 heq
        simp only [Prod.mk.injEq] at hE
        obtain ⟨h1, _⟩ := hE
        cases h1
        simp only [selStructures] at ht
        have := ebGo_mem _ _ _ _ _ _ heq t ht
        rcases this with habs | hgood
        · exact absurd habs (List.not_mem_nil _)
        · exact hgood

/-- C9: every element of every structure of `intersectBy(A, B)`'s result
lies in some structure of A's result and in some structure of B's result;
every element of every structure of `exceptBy(A, B)`'s result lies in some
structure of A's result and in no structure of B's result. -/
theorem c9_intersect_except_membership :
    ∀ (A B : Query) (ctx ctxA ctxB ctxI ctxE : Ctx) (selA selB outI outE : MSel),
      A ctx = (Except.ok selA, ctxA) →
      B ctxA = (Except.ok selB, ctxB) →
      intersectByEval A B ctx = (Except.ok outI, ctxI) →
      exceptByEval A B ctx = (Except.ok outE, ctxE) →
      (∀ t ∈ selStructures outI, ∀ p ∈ toPairs t,
        (∃ sa ∈ selStructures selA, p ∈ toPairs sa) ∧
        (∃ sb ∈ selStructures selB, p ∈ toPairs sb)) ∧
      (∀ t ∈ selStructures outE, ∀ p ∈ toPairs t,
        (∃ sa ∈ selStructures selA, p ∈ toPairs sa) ∧
        (∀ sb ∈ selStructures selB, p ∉ toPairs sb)) := by
  intro A B ctx ctxA ctxB ctxI ctxE selA selB outI outE hA hB hI hE
  constructor
  · intro t ht p hp
    obtain ⟨s, hs, rfl⟩ := intersectByEval_mem hA hB hI t ht
    rw [toPairs_structureIntersect, Finset.mem_inter] at hp
    refine ⟨⟨s, hs, hp.2⟩, ?_⟩
    have := hp.1
    rw [toPairs_unionStructureOf] at this
    exact mem_selPairsL.mp this
  · intro t ht p hp
    obtain ⟨s, hs, rfl⟩ := exceptByEval_mem hA hB hE t ht
    rw [toPairs_structureSubtract, Finset.mem_sdiff] at hp
    refine ⟨⟨s, hs, hp.1⟩, ?_⟩
    intro sb hsb hmem
    apply hp.2
    rw [toPairs_unionStructureOf]
    exact mem_selPairsL.mpr ⟨sb, hsb, hmem⟩

/-- A concrete one-unit structure used by witnesses. -/
def wUnit (uid : Nat) (es : List Nat) : MUnit := ⟨uid, MKind.atomic, [0, 2], es⟩

/-- A concrete query returning a given sequence selection unchanged. -/
def qConst (ss : List MStructure) : Query :=
  fun c => (Except.ok (MSel.sequence ⟨[]⟩ ss), c)

/-- The evaluation context after the concrete C9 runs: one loop item and
one deadline check recorded. -/
def c9ctxEnd : Ctx :=
  ⟨[⟨[wUnit 0 [0, 1]]⟩], ⟨none, none⟩, [], false, [Event.item, Event.check], 0⟩

/-- Witness for C9 at concrete queries: the pair (0, 1) of the structure
produced by intersecting the selection of atoms 0 and 1 with the selection
of atom 1 is present on both sides. -/
theorem c9_intersect_except_membership_witness :
    (∃ sa ∈ selStructures (MSel.sequence ⟨[]⟩ [⟨[wUnit 0 [0, 1]]⟩]),
      ((0 : Nat), (1 : Nat)) ∈ toPairs sa) ∧
    (∃ sb ∈ selStructures (MSel.sequence ⟨[]⟩ [⟨[wUnit 0 [1]]⟩]),
      ((0 : Nat), (1 : Nat)) ∈ toPairs sb) := by
  exact (c9_intersect_except_membership
    (qConst [⟨[wUnit 0 [0, 1]]⟩]) (qConst [⟨[wUnit 0 [1]]⟩])
    (cinit ⟨[wUnit 0 [0, 1]]⟩) (cinit ⟨[wUnit 0 [0, 1]]⟩)
    (cinit ⟨[wUnit 0 [0, 1]]⟩) c9ctxEnd c9ctxEnd
    (MSel.sequence ⟨[]⟩ [⟨[wUnit 0 [0, 1]]⟩])
    (MSel.sequence ⟨[]⟩ [⟨[wUnit 0 [1]]⟩])
    (MSel.sequence ⟨[wUnit 0 [0, 1]]⟩ [⟨[⟨0, MKind.atomic, [0, 2], [1]⟩]⟩])
    (MSel.sequence ⟨[wUnit 0 [0, 1]]⟩ [⟨[⟨0, MKind.atomic, [0, 2], [0]⟩]⟩])
    rfl rfl rfl rfl).1
    ⟨[⟨0, MKind.atomic, [0, 2], [1]⟩]⟩ (by decide) (0, 1) (by decide)

theorem ibGo_selPairs {uB : MStructure} :
    ∀ (l : List MStructure) (ctx : Ctx) (sI : Nat) (acc res : List MStructure)
      (c : Ctx), ibGo uB ctx l sI acc = (Except.ok res, c) →
      selPairsL res = selPairsL acc ∪ selPairsL (l.map (structureIntersect uB)) := by
  intro l
  induction l with
  | nil =>
    intro ctx sI acc res c h
    simp only [ibGo, Prod.mk.injEq] at h
    obtain ⟨h1, _⟩ := h
    cases h1
    simp [selPairsL]
  | cons s rest ih =>
    intro ctx sI acc res c h
    simp only [ibGo] at h
    split at h
    · exact absurd h (by simp)
    · have hres := ih _ _ _ _ _ h
      by_cases hne : elementCount (structureIntersect uB s) ≠ 0
      · rw [if_pos hne, selPairsL_addUniqueStructure] at hres
        rw [hres]
        simp only [List.map_cons, selPairsL]
        rw [Finset.union_assoc]
      · rw [if_neg hne] at hres
        push_neg at hne
        rw [hres]
        simp only [List.map_cons, selPairsL,
          elementCount_eq_zero_toPairs hne, Finset.empty_union]

theorem ebGo_selPairs {uB : MStructure} :
    ∀ (l : List MStructure) (ctx : Ctx) (sI : Nat) (acc res : List MStructure)
      (c : Ctx), ebGo uB ctx l sI acc = (Except.ok res, c) →
      selPairsL res = selPairsL acc ∪
        selPairsL (l.map (fun s => structureSubtract s uB)) := by
  intro l
  induction l with
  | nil =>
    intro ctx sI acc res c h
    simp only [ebGo, Prod.mk.injEq] at h
    obtain ⟨h1, _⟩ := h
    cases h1
    simp [selPairsL]
  | cons s rest ih =>
    intro ctx sI acc res c h
    simp only [ebGo] at h
    split at h
    · exact absurd h (by simp)
    · have hres := ih _ _ _ _ _ h
      by_cases hne : elementCount (structureSubtract s uB) ≠ 0
      · rw [if_pos hne, selPairsL_addUniqueStructure] at hres
        rw [hres]
        simp only [List.map_cons, selPairsL]
        rw [Finset.union_assoc]
      · rw [if_neg hne] at hres
        push_neg at hne
        rw [hres]
        simp only [List.map_cons, selPairsL,
          elementCount_eq_zero_toPairs hne, Finset.empty_union]

theorem selPairsL_map_intersect (uB : MStructure) (l : List MStructure) :
    selPairsL (l.map (structureIntersect uB)) = toPairs uB ∩ selPairsL l := by
  induction l with
  | nil => simp [selPairsL]
  | cons s rest ih =>
    simp only [List.map_cons, selPairsL, ih, toPairs_structureIntersect,
      Finset.inter_union_distrib_left]

theorem selPairsL_map_subtract (uB : MStructure) (l : List MStructure) :
    selPairsL (l.map (fun s => structureSubtract s uB)) = selPairsL l \ toPairs uB := by
  induction l with
  | nil => simp [selPairsL]
  | cons s rest ih =>
    simp only [List.map_cons, selPairsL, ih, toPairs_structureSubtract,
      Finset.union_sdiff_distrib]

/-- C4 (amended): when the `by` selection has at least one structure (and
B's element set is contained in A's universe, as the claim assumes), the
element-wise union of `exceptBy(A, B)`'s structures together with that of
`intersectBy(A, B)`'s structures equals the element-wise union of A's
structures.  (When B yields zero structures both combinators short-circuit
to the empty selection, so the law needs the non-emptiness assumption.) -/
theorem c4_partition_law :
    ∀ (A B : Query) (ctx ctxA ctxB ctxI ctxE : Ctx) (selA selB outI outE : MSel),
      A ctx = (Except.ok selA, ctxA) →
      B ctxA = (Except.ok selB, ctxB) →
      structureCount selB ≠ 0 →
      selPairsL (selStructures selB) ⊆ selPairsL (selStructures selA) →
      intersectByEval A B ctx = (Except.ok outI, ctxI) →
      exceptByEval A B ctx = (Except.ok outE, ctxE) →
      selPairsL (selStructures outE) ∪ selPairsL (selStructures outI)
        = selPairsL (selStructures selA) := by
  intro A B ctx ctxA ctxB ctxI ctxE selA selB outI outE hA hB hbne hsub hI hE
  simp only [intersectByEval, hA] at hI
  simp only [exceptByEval, hA] at hE
  by_cases hc : structureCount selA = 0
  · rw [if_pos hc] at hI hE
    simp only [Prod.mk.injEq] at hI hE
    obtain ⟨h1, _⟩ := hI
    obtain ⟨h2, _⟩ := hE
    cases h1
    cases h2
    rw [selStructures_eq_nil_of_count_zero hc]
    simp [selPairsL]
  · rw [if_neg hc] at hI hE
    simp only [hB] at hI hE
    rw [if_neg hbne] at hI hE
    split at hI
    · exact absurd hI (by simp)
    · rename_i accI cI heqI
      split at hE
      · exact absurd hE (by simp)
      · rename_i accE cE heqE
        simp only [Prod.mk.injEq] at hI hE
        obtain ⟨h1, _⟩ := hI
        obtain ⟨h2, _⟩ := hE
        cases h1
        cases h2
        simp only [selStructures]
        rw [ibGo_selPairs _ _ _ _ _ _ heqI, ebGo_selPairs _ _ _ _ _ _ heqE]
        simp only [selPairsL, Finset.empty_union]
        rw [selPairsL_map_intersect, selPairsL_map_subtract]
        rw [Finset.inter_comm]
        exact Finset.sdiff_union_inter _ _

/-- Counterexample to C4 as stated: when B evaluates to zero structures
(so B's element set is trivially contained in A's universe), both
`exceptBy(A, B)` and `intersectBy(A, B)` return the empty selection, and
the union of their structures is empty while A's union is not. -/
theorem c4_partition_counterexample :
    selPairsL (selStructures (MSel.sequence ⟨[]⟩ ([] : List MStructure)))
      ⊆ selPairsL (selStructures (MSel.sequence ⟨[]⟩ [⟨[wUnit 0 [0]]⟩])) ∧
    intersectByEval (qConst [⟨[wUnit 0 [0]]⟩]) (qConst [])
        (cinit ⟨[wUnit 0 [0]]⟩)
      = (Except.ok (selEmpty ⟨[wUnit 0 [0]]⟩), cinit ⟨[wUnit 0 [0]]⟩) ∧
    exceptByEval (qConst [⟨[wUnit 0 [0]]⟩]) (qConst [])
        (cinit ⟨[wUnit 0 [0]]⟩)
      = (Except.ok (selEmpty ⟨[wUnit 0 [0]]⟩), cinit ⟨[wUnit 0 [0]]⟩) ∧
    selPairsL (selStructures (selEmpty ⟨[wUnit 0 [0]]⟩)) ∪
        selPairsL (selStructures (selEmpty ⟨[wUnit 0 [0]]⟩))
      ≠ selPairsL (selStructures (MSel.sequence ⟨[]⟩ [⟨[wUnit 0 [0]]⟩])) := by
  refine ⟨by decide, rfl, rfl, by decide⟩

/-- Witness for the amended C4 at concrete queries with a non-empty `by`
selection. -/
theorem c4_partition_law_witness :
    selPairsL (selStructures
        (MSel.sequence ⟨[wUnit 0 [0, 1]]⟩
          [⟨[⟨0, MKind.atomic, [0, 2], [0]⟩]⟩])) ∪
      selPairsL (selStructures
        (MSel.sequence ⟨[wUnit 0 [0, 1]]⟩
          [⟨[⟨0, MKind.atomic, [0, 2], [1]⟩]⟩]))
      = selPairsL (selStructures (MSel.sequence ⟨[]⟩ [⟨[wUnit 0 [0, 1]]⟩])) := by
  exact c4_partition_law
    (qConst [⟨[wUnit 0 [0, 1]]⟩]) (qConst [⟨[wUnit 0 [1]]⟩])
    (cinit ⟨[wUnit 0 [0, 1]]⟩) (cinit ⟨[wUnit 0 [0, 1]]⟩)
    (cinit ⟨[wUnit 0 [0, 1]]⟩) c9ctxEnd c9ctxEnd
    (MSel.sequence ⟨[]⟩ [⟨[wUnit 0 [0, 1]]⟩])
    (MSel.sequence ⟨[]⟩ [⟨[wUnit 0 [1]]⟩])
    (MSel.sequence ⟨[wUnit 0 [0, 1]]⟩ [⟨[⟨0, MKind.atomic, [0, 2], [1]⟩]⟩])
    (MSel.sequence ⟨[wUnit 0 [0, 1]]⟩ [⟨[⟨0, MKind.atomic, [0, 2], [0]⟩]⟩])
    rfl rfl (by decide) (by decide) rfl rfl

/-- C1 (code bug): `expandProperty` does not partition the input structure
by property value.  With a constant property, every selection index claims
the single value, so by the claim every atom of the input structure should
appear in every output sub-structure.  Instead, because the second pass
indexes `builders[indices[i]]` by the element index `i` rather than by the
claim-list index `_sI`, atom 20 of the input structure (whose value is
claimed by selection index 0, evaluated on atom 10 of the first inner
structure) is absent from output 0, and each atom is appended to a single
builder `indices.length` times (duplicated elements `[10, 10]` and
`[20, 20]`). -/
theorem c1_expand_property_bug :
    (expandPropertyEval
      (fun c => (Except.ok (MSel.sequence ⟨[⟨0, MKind.coarse, [], [10, 20]⟩]⟩
        [⟨[⟨0, MKind.coarse, [], [10]⟩]⟩, ⟨[⟨0, MKind.coarse, [], [20]⟩]⟩]), c))
      (fun _ _ => (0 : Nat))
      (cinit ⟨[⟨0, MKind.coarse, [], [10, 20]⟩]⟩)).1
    = Except.ok (MSel.sequence ⟨[⟨0, MKind.coarse, [], [10, 20]⟩]⟩
        [⟨[⟨0, MKind.coarse, [], [10, 10]⟩]⟩,
         ⟨[⟨0, MKind.coarse, [], [20, 20]⟩]⟩]) ∧
    (0, 20) ∈ toPairs (⟨[⟨0, MKind.coarse, [], [10, 20]⟩]⟩ : MStructure) ∧
    (0, 20) ∉ toPairs (⟨[⟨0, MKind.coarse, [], [10, 10]⟩]⟩ : MStructure) := by
  refine ⟨rfl, by decide, by decide⟩

/-- C2 (code bug): when the deadline check raises a timeout during
evaluation inside `querySelection` or `expandProperty`, the pending
scope-exit restoration does not run before the error propagates.  In
`querySelection`, an inner query whose own deadline check throws leaves
the pushed input structure on the context stack (depth 2 instead of the
original 1, `popInputStructure` skipped); in `expandProperty`, the
first-pass check at structure index 0 throws after `pushCurrentElement`,
leaving the saved cursor on the stack (depth 1 instead of 0,
`popCurrentElement` skipped). -/
theorem c2_timeout_skips_restoration :
    ((querySelectionEval
        (fun c => (Except.ok (MSel.sequence ⟨[wUnit 0 [0]]⟩ [⟨[wUnit 0 [0]]⟩]), c))
        (fun c => match throwIfTimedOut c with
          | (Except.error e, c') => (Except.error e, c')
          | (Except.ok _, c') => (Except.ok (MSel.sequence ⟨[wUnit 0 [0]]⟩ []), c'))
        (cexpired ⟨[wUnit 0 [0]]⟩)).1 = Except.error QErr.timeout ∧
      (querySelectionEval
        (fun c => (Except.ok (MSel.sequence ⟨[wUnit 0 [0]]⟩ [⟨[wUnit 0 [0]]⟩]), c))
        (fun c => match throwIfTimedOut c with
          | (Except.error e, c') => (Except.error e, c')
          | (Except.ok _, c') => (Except.ok (MSel.sequence ⟨[wUnit 0 [0]]⟩ []), c'))
        (cexpired ⟨[wUnit 0 [0]]⟩)).2.inputStack.length = 2 ∧
      (cexpired ⟨[wUnit 0 [0]]⟩).inputStack.length = 1) ∧
    ((expandPropertyEval
        (fun c => (Except.ok (MSel.sequence ⟨[wUnit 0 [0]]⟩ [⟨[wUnit 0 [0]]⟩]), c))
        (fun _ _ => (0 : Nat))
        (cexpired ⟨[wUnit 0 [0]]⟩)).1 = Except.error QErr.timeout ∧
      (expandPropertyEval
        (fun c => (Except.ok (MSel.sequence ⟨[wUnit 0 [0]]⟩ [⟨[wUnit 0 [0]]⟩]), c))
        (fun _ _ => (0 : Nat))
        (cexpired ⟨[wUnit 0 [0]]⟩)).2.cursorStack.length = 1 ∧
      (cexpired ⟨[wUnit 0 [0]]⟩).cursorStack.length = 0) := by
  exact ⟨⟨rfl, rfl, rfl⟩, ⟨rfl, rfl, rfl⟩⟩

/-- The event trace of the `getWholeResidues` unit loop: one item per
unit, a deadline check only after atomic units. -/
def wrTrace : List MUnit → List Event
  | [] => []
  | u :: rest =>
    (match u.kind with
     | MKind.atomic => [Event.item, Event.check]
     | _ => [Event.item]) ++ wrTrace rest

theorem wrGo_ok : ∀ (units : List MUnit) (ctx : Ctx), ctx.timedOut = false →
    wrGo ctx units = (Except.ok (units.map expandUnit),
      { ctx with events := ctx.events ++ wrTrace units }) := by
  intro units
  induction units with
  | nil =>
    intro ctx h
    simp [wrGo, wrTrace]
  | cons u rest ih =>
    intro ctx h
    obtain ⟨uid, kind, ro, el⟩ := u
    cases kind with
    | atomic =>
      have ht : throwIfTimedOut (tickItem ctx) =
          (Except.ok (), { ctx with events := ctx.events ++ [Event.item] ++ [Event.check] }) := by
        simp [throwIfTimedOut, tickItem, h]
      have hih := ih { ctx with events := ctx.events ++ [Event.item] ++ [Event.check] }
        (by simp [h])
      simp only [wrGo, ht, hih]
      simp [wrTrace, List.append_assoc]
    | coarse =>
      have hih := ih { ctx with events := ctx.events ++ [Event.item] } (by simp [h])
      simp only [wrGo, tickItem, hih]
      simp [wrTrace, expandUnit, List.append_assoc]

theorem wrGo_result : ∀ (units : List MUnit) (ctx : Ctx)
    (us : List MUnit) (c : Ctx), wrGo ctx units = (Except.ok us, c) →
    us = units.map expandUnit := by
  intro units
  induction units with
  | nil =>
    intro ctx us c h
    simp only [wrGo, Prod.mk.injEq] at h
    obtain ⟨h1, _⟩ := h
    cases h1
    simp
  | cons u rest ih =>
    intro ctx us c h
    obtain ⟨uid, kind, ro, el⟩ := u
    cases kind with
    | atomic =>
      simp only [wrGo] at h
      split at h
      · exact absurd h (by simp)
      · split at h
        · exact absurd h (by simp)
        · rename_i us' c2 heq
          simp only [Prod.mk.injEq] at h
          obtain ⟨h1, _⟩ := h
          cases h1
          simp only [List.map_cons]
          rw [ih _ _ _ heq]
    | coarse =>
      simp only [wrGo] at h
      split at h
      · exact absurd h (by simp)
      · rename_i us' c2 heq
        simp only [Prod.mk.injEq] at h
        obtain ⟨h1, _⟩ := h
        cases h1
        simp only [List.map_cons]
        rw [ih _ _ _ heq]
        simp [expandUnit]

theorem getWholeResiduesEval_ok (ctx : Ctx) (source struct : MStructure)
    (h : ctx.timedOut = false) :
    getWholeResiduesEval ctx source struct
      = (Except.ok ⟨struct.units.map expandUnit⟩,
         { ctx with events := ctx.events ++ wrTrace struct.units }) := by
  simp only [getWholeResiduesEval]
  rw [wrGo_ok _ _ h]

theorem getWholeResiduesEval_result {ctx c : Ctx} {source struct out : MStructure}
    (h : getWholeResiduesEval ctx source struct = (Except.ok out, c)) :
    out = ⟨struct.units.map expandUnit⟩ := by
  simp only [getWholeResiduesEval] at h
  split at h
  · exact absurd h (by simp)
  · rename_i us c1 heq
    simp only [Prod.mk.injEq] at h
    obtain ⟨h1, _⟩ := h
    cases h1
    rw [wrGo_result _ _ _ _ heq]

theorem mem_expandUnitElems {offsets elems : List Nat} {j : Nat} :
    j ∈ expandUnitElems offsets elems ↔
      ∃ rI, rI < offsets.length - 1 ∧
        offsets.getD rI 0 ≤ j ∧ j < offsets.getD (rI + 1) 0 ∧
        ∃ e ∈ elems, offsets.getD rI 0 ≤ e ∧ e < offsets.getD (rI + 1) 0 := by
  rw [expandUnitElems, mem_sortedElems]
  simp only [expandElemsF, Finset.mem_biUnion,
    touchedResidues, Finset.mem_filter, Finset.mem_range, residueRange]
  constructor
  · rintro ⟨rI, ⟨hlen, hne⟩, hj⟩
    obtain ⟨e, he⟩ := hne
    rw [Finset.mem_inter, Finset.mem_Ico] at he
    rw [Finset.mem_Ico] at hj
    exact ⟨rI, hlen, hj.1, hj.2, e, List.mem_toFinset.mp he.2, he.1.1, he.1.2⟩
  · rintro ⟨rI, hlen, hj1, hj2, e, he, he1, he2⟩
    refine ⟨rI, ⟨hlen, ⟨e, ?_⟩⟩, Finset.mem_Ico.mpr ⟨hj1, hj2⟩⟩
    rw [Finset.mem_inter, Finset.mem_Ico]
    exact ⟨⟨he1, he2⟩, List.mem_toFinset.mpr he⟩

/-- The 20-atom, 4-residue (size 5) source structure of the spec's
`wholeResidues` scenario. -/
def scenarioInput : MStructure := ⟨[⟨1, MKind.atomic, [0, 5, 10, 15, 20], List.range 20⟩]⟩

/-- The scenario's selected sub-structure: atoms 3 and 7. -/
def scenarioSel : MStructure := ⟨[⟨1, MKind.atomic, [0, 5, 10, 15, 20], [3, 7]⟩]⟩

/-- C7: `getWholeResidues` maps every unit of the inner structure through
`expandUnit`, which copies non-atomic units unchanged and, for atomic
units, includes an element exactly when its residue range
`[offsets[rI], offsets[rI+1])` contains at least one element of the input
unit; in the concrete scenario with residues of size 5, selecting atoms
[3, 7] returns atoms [0..9]. -/
theorem c7_whole_residues :
    (∀ (ctx : Ctx) (source struct : MStructure), ctx.timedOut = false →
      getWholeResiduesEval ctx source struct
        = (Except.ok ⟨struct.units.map expandUnit⟩,
           { ctx with events := ctx.events ++ wrTrace struct.units })) ∧
    (∀ u : MUnit, u.kind ≠ MKind.atomic → expandUnit u = u) ∧
    (∀ u : MUnit, u.kind = MKind.atomic → ∀ j : Nat,
      j ∈ (expandUnit u).elems ↔
        ∃ rI, rI < u.residueOffsets.length - 1 ∧
          u.residueOffsets.getD rI 0 ≤ j ∧ j < u.residueOffsets.getD (rI + 1) 0 ∧
          ∃ e ∈ u.elems, u.residueOffsets.getD rI 0 ≤ e ∧
            e < u.residueOffsets.getD (rI + 1) 0) ∧
    (getWholeResiduesEval (cinit scenarioInput) scenarioInput scenarioSel).1
      = Except.ok ⟨[⟨1, MKind.atomic, [0, 5, 10, 15, 20],
          [0, 1, 2, 3, 4, 5, 6, 7, 8, 9]⟩]⟩ := by
  refine ⟨getWholeResiduesEval_ok, ?_, ?_, rfl⟩
  · intro u hk
    obtain ⟨uid, kind, ro, el⟩ := u
    cases kind with
    | atomic => exact absurd rfl hk
    | coarse => rfl
  · intro u hk j
    obtain ⟨uid, kind, ro, el⟩ := u
    cases kind with
    | atomic =>
      simp only [expandUnit]
      exact mem_expandUnitElems
    | coarse => exact absurd hk (by simp)

/-- Witness for C7's quantified part at the scenario input. -/
theorem c7_whole_residues_witness :
    getWholeResiduesEval (cinit scenarioInput) scenarioInput scenarioSel
      = (Except.ok ⟨scenarioSel.units.map expandUnit⟩,
         { cinit scenarioInput with
            events := (cinit scenarioInput).events ++ wrTrace scenarioSel.units }) :=
  c7_whole_residues.1 (cinit scenarioInput) scenarioInput scenarioSel rfl

theorem getD_mono {offsets : List Nat}
    (hmono : List.Pairwise (· ≤ ·) offsets) {i j : Nat} (hij : i ≤ j)
    (hj : j < offsets.length) : offsets.getD i 0 ≤ offsets.getD j 0 := by
  have hi : i < offsets.length := lt_of_le_of_lt hij hj
  rw [List.getD_eq_getElem offsets 0 hi, List.getD_eq_getElem offsets 0 hj]
  rcases Nat.lt_or_ge i j with h | h
  · exact List.pairwise_iff_getElem.mp hmono i j hi hj h
  · have : i = j := by omega
    subst this
    exact le_rfl

theorem residueRange_disjoint {offsets : List Nat}
    (hmono : List.Pairwise (· ≤ ·) offsets) {rI rJ : Nat} (hne : rI ≠ rJ)
    (hI : rI < offsets.length - 1) (hJ : rJ < offsets.length - 1) :
    residueRange offsets rI ∩ residueRange offsets rJ = ∅ := by
  have key : ∀ a b : Nat, a < b → b < offsets.length - 1 →
      residueRange offsets a ∩ residueRange offsets b = ∅ := by
    intro a b hab hb
    ext x
    simp only [Finset.mem_inter, Finset.not_mem_empty, iff_false, residueRange,
      Finset.mem_Ico]
    rintro ⟨⟨_, hx1⟩, hx2, _⟩
    have hle : offsets.getD (a + 1) 0 ≤ offsets.getD b 0 :=
      getD_mono hmono (by omega) (by omega)
    omega
  rcases Nat.lt_or_ge rI rJ with h | h
  · exact key rI rJ h hJ
  · have h2 : rJ < rI := by omega
    rw [Finset.inter_comm]
    exact key rJ rI h2 hI

theorem touchedResidues_expand {offsets : List Nat}
    (hmono : List.Pairwise (· ≤ ·) offsets) (es : Finset Nat) :
    touchedResidues offsets (expandElemsF offsets es) = touchedResidues offsets es := by
  ext rI
  simp only [touchedResidues, Finset.mem_filter, Finset.mem_range]
  constructor
  · rintro ⟨hlen, j, hj⟩
    rw [Finset.mem_inter] at hj
    obtain ⟨hjr, hjX⟩ := hj
    rw [expandElemsF, Finset.mem_biUnion] at hjX
    obtain ⟨rJ, hrJ, hjJ⟩ := hjX
    simp only [touchedResidues, Finset.mem_filter, Finset.mem_range] at hrJ
    by_cases heq : rI = rJ
    · subst heq
      exact ⟨hlen, hrJ.2⟩
    · exfalso
      have := residueRange_disjoint hmono heq hlen hrJ.1
      have : j ∈ residueRange offsets rI ∩ residueRange offsets rJ :=
        Finset.mem_inter.mpr ⟨hjr, hjJ⟩
      simp_all
  · rintro ⟨hlen, e, he⟩
    rw [Finset.mem_inter] at he
    refine ⟨hlen, e, Finset.mem_inter.mpr ⟨he.1, ?_⟩⟩
    rw [expandElemsF, Finset.mem_biUnion]
    refine ⟨rI, ?_, he.1⟩
    simp only [touchedResidues, Finset.mem_filter, Finset.mem_range]
    exact ⟨hlen, e, Finset.mem_inter.mpr he⟩

theorem expandElemsF_idem {offsets : List Nat}
    (hmono : List.Pairwise (· ≤ ·) offsets) (es : Finset Nat) :
    expandElemsF offsets (expandElemsF offsets es) = expandElemsF offsets es := by
  rw [expandElemsF, touchedResidues_expand hmono, expandElemsF]

theorem expandUnitElems_idem {offsets elems : List Nat}
    (hmono : List.Pairwise (· ≤ ·) offsets) :
    expandUnitElems offsets (expandUnitElems offsets elems)
      = expandUnitElems offsets elems := by
  rw [expandUnitElems, expandUnitElems, toFinset_sortedElems,
    expandElemsF_idem hmono]

theorem expandUnit_idem (u : MUnit)
    (hmono : u.kind = MKind.atomic → List.Pairwise (· ≤ ·) u.residueOffsets) :
    expandUnit (expandUnit u) = expandUnit u := by
  obtain ⟨uid, kind, ro, el⟩ := u
  cases kind with
  | atomic =>
    simp only [expandUnit]
    rw [expandUnitElems_idem (hmono rfl)]
  | coarse => rfl

/-- C8: whole-residue expansion is idempotent: for every structure over a
given source whose atomic units have monotone residue-offset tables (the
data-model invariant of spec 3), applying `getWholeResidues` to the result
of a first application returns the same structure. -/
theorem c8_whole_residues_idempotent :
    ∀ (ctx ctx' c₁ c₂ : Ctx) (source source' struct out₁ out₂ : MStructure),
      (∀ u ∈ struct.units, u.kind = MKind.atomic →
        List.Pairwise (· ≤ ·) u.residueOffsets) →
      getWholeResiduesEval ctx source struct = (Except.ok out₁, c₁) →
      getWholeResiduesEval ctx' source' out₁ = (Except.ok out₂, c₂) →
      out₂ = out₁ := by
  intro ctx ctx' c₁ c₂ source source' struct out₁ out₂ hmono h1 h2
  have e1 := getWholeResiduesEval_result h1
  have e2 := getWholeResiduesEval_result h2
  subst e1
  subst e2
  congr 1
  simp only [List.map_map]
  apply List.map_congr_left
  intro u hu
  exact expandUnit_idem u (hmono u hu)

/-- Witness for C8 at the scenario input: expanding the expansion of atoms
[3, 7] returns the first expansion unchanged. -/
theorem c8_whole_residues_idempotent_witness :
    (⟨[⟨1, MKind.atomic, [0, 5, 10, 15, 20],
        [0, 1, 2, 3, 4, 5, 6, 7, 8, 9]⟩]⟩ : MStructure)
      = ⟨[⟨1, MKind.atomic, [0, 5, 10, 15, 20],
          [0, 1, 2, 3, 4, 5, 6, 7, 8, 9]⟩]⟩ := by
  exact c8_whole_residues_idempotent
    (cinit scenarioInput) (cinit scenarioInput)
    ⟨[scenarioInput], ⟨none, none⟩, [], false, [Event.item, Event.check], 0⟩
    ⟨[scenarioInput], ⟨none, none⟩, [], false, [Event.item, Event.check], 0⟩
    scenarioInput scenarioInput scenarioSel
    ⟨[⟨1, MKind.atomic, [0, 5, 10, 15, 20], [0, 1, 2, 3, 4, 5, 6, 7, 8, 9]⟩]⟩
    ⟨[⟨1, MKind.atomic, [0, 5, 10, 15, 20], [0, 1, 2, 3, 4, 5, 6, 7, 8, 9]⟩]⟩
    (by decide) rfl rfl

/-- The event trace of a loop that checks the deadline after every one of
`n` units. -/
def unitCheckTrace : Nat → List Event
  | 0 => []
  | n + 1 => Event.item :: Event.check :: unitCheckTrace n

/-- Total element count of a unit list. -/
def elemsLen (units : List MUnit) : Nat :=
  (units.map (fun u => u.elems.length)).sum

theorem elemsLookup_ctx {lookup : Lookup3d} {conf : Conformation} {uid : Nat}
    {r : Int} : ∀ (es : List Nat) (ctx : Ctx) (hits : Finset (Nat × Nat)),
    (elemsLookup lookup conf uid r ctx es hits).2
      = { ctx with lookupCalls := ctx.lookupCalls + es.length } := by
  intro es
  induction es with
  | nil =>
    intro ctx hits
    simp [elemsLookup]
  | cons e rest ih =>
    intro ctx hits
    simp only [elemsLookup, ih, List.length_cons]
    congr 1
    omega

theorem elemsLookup_hits_mono {lookup : Lookup3d} {conf : Conformation}
    {uid : Nat} {r : Int} : ∀ (es : List Nat) (ctx : Ctx) (hits : Finset (Nat × Nat)),
    hits ⊆ (elemsLookup lookup conf uid r ctx es hits).1 ∧
    ∀ e ∈ es, lookup (conf uid e).1 (conf uid e).2.1 (conf uid e).2.2 r
      ⊆ (elemsLookup lookup conf uid r ctx es hits).1 := by
  intro es
  induction es with
  | nil =>
    intro ctx hits
    exact ⟨Finset.Subset.refl _, by simp⟩
  | cons e rest ih =>
    intro ctx hits
    obtain ⟨hmono, hlk⟩ := ih { ctx with lookupCalls := ctx.lookupCalls + 1 }
      (hits ∪ lookup (conf uid e).1 (conf uid e).2.1 (conf uid e).2.2 r)
    refine ⟨?_, ?_⟩
    · exact fun p hp => hmono (Finset.mem_union_left _ hp)
    · intro e' he'
      rcases List.mem_cons.mp he' with rfl | hrest
      · exact fun p hp => hmono (Finset.mem_union_right _ hp)
      · exact hlk e' hrest

theorem elemsLookup_hits_origin {lookup : Lookup3d} {conf : Conformation}
    {uid : Nat} {r : Int} : ∀ (es : List Nat) (ctx : Ctx) (hits : Finset (Nat × Nat)),
    ∀ p ∈ (elemsLookup lookup conf uid r ctx es hits).1,
      p ∈ hits ∨ ∃ x y z, p ∈ lookup x y z r := by
  intro es
  induction es with
  | nil =>
    intro ctx hits p hp
    exact Or.inl hp
  | cons e rest ih =>
    intro ctx hits p hp
    rcases ih _ _ p hp with hu | hlk
    · rcases Finset.mem_union.mp hu with h | h
      · exact Or.inl h
      · exact Or.inr ⟨(conf uid e).1, (conf uid e).2.1, (conf uid e).2.2, h⟩
    · exact Or.inr hlk

theorem isUnitsGo_ok {lookup : Lookup3d} {conf : Conformation} {r : Int} :
    ∀ (units : List MUnit) (ctx : Ctx) (hits : Finset (Nat × Nat)),
    ctx.timedOut = false →
    ∃ H, isUnitsGo lookup conf r ctx units hits
      = (Except.ok H, { ctx with
          events := ctx.events ++ unitCheckTrace units.length,
          lookupCalls := ctx.lookupCalls + elemsLen units }) := by
  intro units
  induction units with
  | nil =>
    intro ctx hits h
    refine ⟨hits, ?_⟩
    simp [isUnitsGo, unitCheckTrace, elemsLen]
  | cons u rest ih =>
    intro ctx hits h
    have hstep := @elemsLookup_ctx lookup conf u.uid r u.elems ctx hits
    obtain ⟨H, hrec⟩ := ih
      { ctx with events := ctx.events ++ [Event.item] ++ [Event.check],
                 lookupCalls := ctx.lookupCalls + u.elems.length } (elemsLookup lookup conf u.uid r ctx u.elems hits).1 (by simp [h])
    refine ⟨H, ?_⟩
    have ht : throwIfTimedOut (tickItem
        { ctx with lookupCalls := ctx.lookupCalls + u.elems.length })
        = (Except.ok (), { ctx with
            events := ctx.events ++ [Event.item] ++ [Event.check],
            lookupCalls := ctx.lookupCalls + u.elems.length }) := by
      simp [throwIfTimedOut, tickItem, h]
    simp only [isUnitsGo, hstep, ht, hrec, Prod.mk.injEq, Ctx.mk.injEq,
      unitCheckTrace, elemsLen, List.map_cons, List.sum_cons]
    repeat' apply And.intro
    all_goals first
      | trivial
      | simp [List.append_assoc]
      | omega

theorem isUnitsGo_hits_mono {lookup : Lookup3d} {conf : Conformation} {r : Int} :
    ∀ (units : List MUnit) (ctx : Ctx) (hits H : Finset (Nat × Nat)) (c : Ctx),
    isUnitsGo lookup conf r ctx units hits = (Except.ok H, c) →
    hits ⊆ H ∧ ∀ u ∈ units, ∀ e ∈ u.elems,
      lookup (conf u.uid e).1 (conf u.uid e).2.1 (conf u.uid e).2.2 r ⊆ H := by
  intro units
  induction units with
  | nil =>
    intro ctx hits H c h
    simp only [isUnitsGo, Prod.mk.injEq] at h
    obtain ⟨h1, _⟩ := h
    cases h1
    exact ⟨Finset.Subset.refl _, by simp⟩
  | cons u rest ih =>
    intro ctx hits H c h
    simp only [isUnitsGo] at h
    split at h
    · exact absurd h (by simp)
    · rename_i c1 heq
      obtain ⟨hmono, hrest⟩ := ih _ _ _ _ h
      obtain ⟨hm2, hlk2⟩ := @elemsLookup_hits_mono lookup conf u.uid r u.elems ctx hits
      refine ⟨fun p hp => hmono (hm2 hp), ?_⟩
      intro v hv e he
      rcases List.mem_cons.mp hv with rfl | hvrest
      · exact fun p hp => hmono (hlk2 e he hp)
      · exact hrest v hvrest e he

theorem isUnitsGo_hits_origin {lookup : Lookup3d} {conf : Conformation} {r : Int} :
    ∀ (units : List MUnit) (ctx : Ctx) (hits H : Finset (Nat × Nat)) (c : Ctx),
    isUnitsGo lookup conf r ctx units hits = (Except.ok H, c) →
    ∀ p ∈ H, p ∈ hits ∨ ∃ x y z, p ∈ lookup x y z r := by
  intro units
  induction units with
  | nil =>
    intro ctx hits H c h p hp
    simp only [isUnitsGo, Prod.mk.injEq] at h
    obtain ⟨h1, _⟩ := h
    cases h1
    exact Or.inl hp
  | cons u rest ih =>
    intro ctx hits H c h p hp
    simp only [isUnitsGo] at h
    split at h
    · exact absurd h (by simp)
    · rename_i c1 heq
      rcases ih _ _ _ _ h p hp with hs | hlk
      · exact elemsLookup_hits_origin _ _ _ p hs
      · exact Or.inr hlk

theorem mem_hitElems {hits : Finset (Nat × Nat)} {uid e : Nat} :
    e ∈ hitElems hits uid ↔ (uid, e) ∈ hits := by
  rw [hitElems, mem_sortedElems]
  simp only [Finset.mem_image, Finset.mem_filter]
  constructor
  · rintro ⟨p, ⟨hp, hp1⟩, hp2⟩
    have : p = (uid, e) := by
      cases p
      simp_all
    rw [this] at hp
    exact hp
  · intro h
    exact ⟨(uid, e), ⟨h, rfl⟩, rfl⟩

theorem hitElems_isEmpty_false {hits : Finset (Nat × Nat)} {uid e : Nat}
    (h : (uid, e) ∈ hits) : (hitElems hits uid).isEmpty = false := by
  apply sortedElems_ne_nil_of_mem (e := e)
  simp only [Finset.mem_image, Finset.mem_filter]
  exact ⟨(uid, e), ⟨h, rfl⟩, rfl⟩

theorem find_segment : ∀ (offsets : List Nat) (e : Nat),
    offsets.headD 0 ≤ e → e < offsets.getLastD 0 →
    ∃ rI, rI < offsets.length - 1 ∧ offsets.getD rI 0 ≤ e ∧
      e < offsets.getD (rI + 1) 0 := by
  intro offsets
  induction offsets with
  | nil =>
    intro e h1 h2
    simp only [List.getLastD] at h2
    omega
  | cons a rest ih =>
    intro e h1 h2
    cases rest with
    | nil =>
      simp only [List.headD] at h1
      rw [List.getLastD_cons] at h2
      simp only [List.getLastD] at h2
      omega
    | cons b t =>
      by_cases hb : e < b
      · refine ⟨0, ?_, ?_, ?_⟩
        · simp only [List.length_cons]
          omega
        · simpa using h1
        · simpa using hb
      · have h1' : (b :: t).headD 0 ≤ e := by
          simp only [List.headD]
          omega
        have h2' : e < (b :: t).getLastD 0 := by
          rw [List.getLastD_cons, List.getLastD_cons] at h2
          rw [List.getLastD_cons]
          exact h2
        obtain ⟨rI, hlen, hlo, hhi⟩ := ih e h1' h2'
        refine ⟨rI + 1, ?_, ?_, ?_⟩
        · simp only [List.length_cons] at hlen ⊢
          omega
        · simpa using hlo
        · simpa using hhi

theorem expandUnit_uid (u : MUnit) : (expandUnit u).uid = u.uid := by
  obtain ⟨uid, kind, ro, el⟩ := u
  cases kind <;> rfl

theorem expandUnit_mem {u : MUnit} {e : Nat} (he : e ∈ u.elems)
    (hcov : u.kind = MKind.atomic →
      u.residueOffsets.headD 0 = 0 ∧ e < u.residueOffsets.getLastD 0) :
    e ∈ (expandUnit u).elems := by
  obtain ⟨uid, kind, ro, el⟩ := u
  cases kind with
  | coarse => exact he
  | atomic =>
    obtain ⟨hh, hl⟩ := hcov rfl
    simp only at hh hl
    simp only [expandUnit]
    simp only at he
    obtain ⟨rI, h1, h2, h3⟩ := find_segment ro e (by omega) hl
    exact mem_expandUnitElems.mpr ⟨rI, h1, h2, h3, e, he, h2, h3⟩

theorem mem_toPairs_builderGetStructure {source : MStructure}
    {hits : Finset (Nat × Nat)} {uid e : Nat} (hhit : (uid, e) ∈ hits)
    {su : MUnit} (hsu : su ∈ source.units) (huid : su.uid = uid) :
    (uid, e) ∈ toPairs (builderGetStructure source hits) := by
  apply mem_toPairs.mpr
  refine ⟨{ su with elems := hitElems hits su.uid }, ?_, by simp [huid], ?_⟩
  · simp only [builderGetStructure, List.mem_filterMap]
    refine ⟨su, hsu, ?_⟩
    rw [if_neg ?_]
    intro habs
    rw [huid] at habs
    rw [hitElems_isEmpty_false hhit] at habs
    cases habs
  · simp only []
    rw [huid]
    exact mem_hitElems.mpr (huid ▸ hhit)

theorem mem_units_builderGetStructure {source : MStructure}
    {hits : Finset (Nat × Nat)} {v : MUnit}
    (hv : v ∈ (builderGetStructure source hits).units) :
    ∃ su ∈ source.units, v = { su with elems := hitElems hits su.uid } := by
  simp only [builderGetStructure, List.mem_filterMap] at hv
  obtain ⟨su, hsu, hmap⟩ := hv
  by_cases hes : (hitElems hits su.uid).isEmpty = true
  · rw [if_pos hes] at hmap
    cases hmap
  · rw [if_neg hes] at hmap
    exact ⟨su, hsu, (Option.some.inj hmap).symm⟩

/-- C6: for every radius r that is non-negative, assuming the spatial
index reports each queried atom of the source as a self-hit at zero
distance (and, when the `wholeResidues` post-pass is requested, the
data-model segmentation invariants and the index's range contract), the
structure returned by `getIncludeSurroundings` contains every
(unit, element) of the input structure S that lies in the source
structure's element space: the output is a superset of S restricted to the
source's element space. -/
theorem c6_include_surroundings_superset :
    ∀ (lookup : Lookup3d) (conf : Conformation) (ctx : Ctx)
      (source struct : MStructure) (params : ISParams),
      0 ≤ params.radius →
      ctx.timedOut = false →
      (∀ u ∈ struct.units, ∀ e ∈ u.elems, (u.uid, e) ∈ toPairs source →
        (u.uid, e) ∈ lookup (conf u.uid e).1 (conf u.uid e).2.1
          (conf u.uid e).2.2 params.radius) →
      (params.wholeResidues.getD false = true → ∀ su ∈ source.units,
        su.kind = MKind.atomic → su.residueOffsets.headD 0 = 0) →
      (params.wholeResidues.getD false = true → ∀ x y z p,
        p ∈ lookup x y z params.radius → ∀ su ∈ source.units, su.uid = p.1 →
        su.kind = MKind.atomic → p.2 < su.residueOffsets.getLastD 0) →
      ∃ out ctx', getIncludeSurroundingsEval lookup conf ctx source struct params
        = (Except.ok out, ctx') ∧
        ∀ u ∈ struct.units, ∀ e ∈ u.elems, (u.uid, e) ∈ toPairs source →
          (u.uid, e) ∈ toPairs out := by
  intro lookup conf ctx source struct params hr htd hself hseg hrange
  obtain ⟨H, hrun⟩ := isUnitsGo_ok struct.units ctx ∅ htd
  have hmem : ∀ u ∈ struct.units, ∀ e ∈ u.elems, (u.uid, e) ∈ toPairs source →
      (u.uid, e) ∈ H := by
    intro u hu e he hsrc
    exact (isUnitsGo_hits_mono _ _ _ _ _ hrun).2 u hu e he (hself u hu e he hsrc)
  by_cases hflag : params.wholeResidues.getD false = true
  · refine ⟨⟨(builderGetStructure source H).units.map expandUnit⟩,
      { ctx with
          events := (ctx.events ++ unitCheckTrace struct.units.length) ++
            wrTrace (builderGetStructure source H).units,
          lookupCalls := ctx.lookupCalls + elemsLen struct.units }, ?_, ?_⟩
    · simp only [getIncludeSurroundingsEval, hrun, hflag, if_true]
      rw [getWholeResiduesEval_ok _ _ _ (by simp [htd])]
    · intro u hu e he hsrcp
      have hH := hmem u hu e he hsrcp
      obtain ⟨su, hsu, hsuid, hse⟩ := mem_toPairs.mp hsrcp
      simp only at hsuid hse
      have hb : (u.uid, e) ∈ toPairs (builderGetStructure source H) :=
        mem_toPairs_builderGetStructure hH hsu hsuid.symm
      obtain ⟨v, hv, hvuid, hve⟩ := mem_toPairs.mp hb
      simp only at hvuid hve
      apply mem_toPairs.mpr
      refine ⟨expandUnit v, List.mem_map.mpr ⟨v, hv, rfl⟩, ?_, ?_⟩
      · simp [expandUnit_uid, hvuid]
      · apply expandUnit_mem hve
        intro hatomic
        obtain ⟨sv, hsv, hveq⟩ := mem_units_builderGetStructure hv
        have hkind : v.kind = sv.kind := by rw [hveq]
        have hro : v.residueOffsets = sv.residueOffsets := by rw [hveq]
        have hvuid2 : v.uid = sv.uid := by rw [hveq]
        constructor
        · rw [hro]
          exact hseg hflag sv hsv (by rw [← hkind]; exact hatomic)
        · have hmemH : (sv.uid, e) ∈ H := by
            have : e ∈ hitElems H sv.uid := by
              have : e ∈ v.elems := hve
              rw [hveq] at this
              exact this
            exact mem_hitElems.mp this
          rcases isUnitsGo_hits_origin _ _ _ _ _ hrun _ hmemH with habs | ⟨x, y, z, hlk⟩
          · exact absurd habs (Finset.not_mem_empty _)
          · rw [hro]
            exact hrange hflag x y z (sv.uid, e) hlk sv hsv rfl
              (by rw [← hkind]; exact hatomic)
  · refine ⟨builderGetStructure source H,
      { ctx with
          events := ctx.events ++ unitCheckTrace struct.units.length,
          lookupCalls := ctx.lookupCalls + elemsLen struct.units }, ?_, ?_⟩
    · simp only [getIncludeSurroundingsEval, hrun]
      rw [if_neg hflag]
    · intro u hu e he hsrcp
      have hH := hmem u hu e he hsrcp
      obtain ⟨su, hsu, hsuid, hse⟩ := mem_toPairs.mp hsrcp
      simp only at hsuid
      exact mem_toPairs_builderGetStructure hH hsu hsuid.symm

/-- Witness for C6: radius-0 surroundings of the single-atom structure
contain that atom (the self-inclusion check), with a self-hit-reporting
spatial index. -/
theorem c6_include_surroundings_superset_witness :
    ∃ out ctx', getIncludeSurroundingsEval
        (fun _ _ _ _ => {(0, 0)}) (fun _ _ => (0, 0, 0))
        (cinit ⟨[wUnit 0 [0]]⟩) ⟨[wUnit 0 [0]]⟩ ⟨[wUnit 0 [0]]⟩
        ⟨0, none⟩
      = (Except.ok out, ctx') ∧
      ∀ u ∈ (⟨[wUnit 0 [0]]⟩ : MStructure).units, ∀ e ∈ u.elems,
        (u.uid, e) ∈ toPairs ⟨[wUnit 0 [0]]⟩ → (u.uid, e) ∈ toPairs out := by
  exact c6_include_surroundings_superset
    (fun _ _ _ _ => {(0, 0)}) (fun _ _ => (0, 0, 0))
    (cinit ⟨[wUnit 0 [0]]⟩) ⟨[wUnit 0 [0]]⟩ ⟨[wUnit 0 [0]]⟩ ⟨0, none⟩
    (by decide) rfl (by decide)
    (fun habs => absurd habs (by decide))
    (fun habs => absurd habs (by decide))

theorem getIncludeSurroundingsEval_ok {lookup : Lookup3d} {conf : Conformation}
    (ctx : Ctx) (source struct : MStructure) (params : ISParams)
    (htd : ctx.timedOut = false) :
    ∃ out evs, getIncludeSurroundingsEval lookup conf ctx source struct params
      = (Except.ok out, { ctx with
          events := ctx.events ++ evs,
          lookupCalls := ctx.lookupCalls + elemsLen struct.units }) := by
  obtain ⟨H, hrun⟩ := @isUnitsGo_ok lookup conf params.radius struct.units ctx ∅ htd
  by_cases hflag : params.wholeResidues.getD false = true
  · refine ⟨⟨(builderGetStructure source H).units.map expandUnit⟩,
      unitCheckTrace struct.units.length ++
        wrTrace (builderGetStructure source H).units, ?_⟩
    simp only [getIncludeSurroundingsEval, hrun, hflag, if_true]
    rw [getWholeResiduesEval_ok _ _ _ (by simp [htd])]
    simp [List.append_assoc]
  · refine ⟨builderGetStructure source H, unitCheckTrace struct.units.length, ?_⟩
    simp only [getIncludeSurroundingsEval, hrun]
    rw [if_neg hflag]

theorem mapUniqueGo_surroundings_ok {lookup : Lookup3d} {conf : Conformation}
    {params : ISParams} :
    ∀ (ss : List MStructure) (ctx : Ctx) (acc : List MStructure),
    ctx.timedOut = false →
    ∃ res ctx₂, mapUniqueGo
        (fun c' s => getIncludeSurroundingsEval lookup conf c'
          (inputStructure c') s params) ctx ss acc
      = (Except.ok res, ctx₂) ∧
      ctx₂.lookupCalls = ctx.lookupCalls +
        (ss.map (fun s => elemsLen s.units)).sum ∧
      ctx₂.timedOut = false := by
  intro ss
  induction ss with
  | nil =>
    intro ctx acc htd
    exact ⟨acc, ctx, rfl, by simp, htd⟩
  | cons s rest ih =>
    intro ctx acc htd
    obtain ⟨out, evs, hstep⟩ := @getIncludeSurroundingsEval_ok lookup conf
      ctx (inputStructure ctx) s params htd
    obtain ⟨res, ctx₂, hrec, hcount, htd₂⟩ := ih
      { ctx with
        events := ctx.events ++ evs,
        lookupCalls := ctx.lookupCalls + elemsLen s.units }
      (addUniqueStructure acc out) (by simp [htd])
    refine ⟨res, ctx₂, ?_, ?_, htd₂⟩
    · simp only [mapUniqueGo, hstep, hrec]
    · simp only [hcount, List.map_cons, List.sum_cons]
      omega

/-- C3 (amended): `includeSurroundings` performs no entry validation of
the radius.  For every radius r < 0, assuming the inner query succeeds and
the deadline has not passed, the combinator returns normally (no
validation failure is raised) after issuing one spatial-index query per
element of every selected structure, with the negative radius passed
through to the index unchanged. -/
theorem c3_no_radius_validation :
    ∀ (lookup : Lookup3d) (conf : Conformation) (q : Query) (params : ISParams)
      (ctx ctx₁ : Ctx) (sel : MSel),
      params.radius < 0 →
      q ctx = (Except.ok sel, ctx₁) →
      ctx₁.timedOut = false →
      ∃ out ctx₂, includeSurroundingsEval lookup conf q params ctx
        = (Except.ok out, ctx₂) ∧
        ctx₂.lookupCalls = ctx₁.lookupCalls +
          ((selStructures sel).map (fun s => elemsLen s.units)).sum := by
  intro lookup conf q params ctx ctx₁ sel hr hq htd
  cases sel with
  | singleton src s =>
    obtain ⟨out, evs, hstep⟩ := @getIncludeSurroundingsEval_ok lookup conf
      ctx₁ (inputStructure ctx₁) s params htd
    refine ⟨MSel.singleton (inputStructure ctx₁) out,
      { ctx₁ with
        events := ctx₁.events ++ evs,
        lookupCalls := ctx₁.lookupCalls + elemsLen s.units }, ?_, ?_⟩
    · simp only [includeSurroundingsEval, hq, hstep]
    · simp [selStructures]
  | sequence src ss =>
    obtain ⟨res, ctx₂, hrec, hcount, _⟩ := @mapUniqueGo_surroundings_ok
      lookup conf params ss ctx₁ [] htd
    refine ⟨MSel.sequence (inputStructure ctx₁) res, ctx₂, ?_, ?_⟩
    · simp only [includeSurroundingsEval, hq, hrec]
    · simpa [selStructures] using hcount

/-- Counterexample to C3 as stated: with radius -1, `includeSurroundings`
is not rejected at entry.  It evaluates normally, issues one spatial-index
query (with the negative radius) for the selected atom, and silently
returns the empty result the index reports. -/
theorem c3_negative_radius_counterexample :
    ((includeSurroundingsEval (fun _ _ _ _ => (∅ : Finset (Nat × Nat)))
        (fun _ _ => (0, 0, 0))
        (fun c => (Except.ok (MSel.singleton ⟨[wUnit 0 [0]]⟩ ⟨[wUnit 0 [0]]⟩), c))
        ⟨-1, none⟩ (cinit ⟨[wUnit 0 [0]]⟩)).1
      = Except.ok (MSel.singleton ⟨[wUnit 0 [0]]⟩ ⟨[]⟩)) ∧
    ((includeSurroundingsEval (fun _ _ _ _ => (∅ : Finset (Nat × Nat)))
        (fun _ _ => (0, 0, 0))
        (fun c => (Except.ok (MSel.singleton ⟨[wUnit 0 [0]]⟩ ⟨[wUnit 0 [0]]⟩), c))
        ⟨-1, none⟩ (cinit ⟨[wUnit 0 [0]]⟩)).2.lookupCalls = 1) ∧
    ((-1 : Int) < 0) := by
  exact ⟨rfl, rfl, by decide⟩

/-- Witness for the amended C3: at radius -1 over a one-atom singleton
selection, evaluation succeeds and exactly one spatial-index query was
issued. -/
theorem c3_no_radius_validation_witness :
    ∃ out ctx₂, includeSurroundingsEval (fun _ _ _ _ => (∅ : Finset (Nat × Nat)))
        (fun _ _ => (0, 0, 0))
        (fun c => (Except.ok (MSel.singleton ⟨[wUnit 0 [0]]⟩ ⟨[wUnit 0 [0]]⟩), c))
        ⟨-1, none⟩ (cinit ⟨[wUnit 0 [0]]⟩)
      = (Except.ok out, ctx₂) ∧
      ctx₂.lookupCalls = (cinit ⟨[wUnit 0 [0]]⟩).lookupCalls +
        ((selStructures (MSel.singleton ⟨[wUnit 0 [0]]⟩ ⟨[wUnit 0 [0]]⟩)).map
          (fun s => elemsLen s.units)).sum := by
  exact c3_no_radius_validation (fun _ _ _ _ => ∅) (fun _ _ => (0, 0, 0))
    (fun c => (Except.ok (MSel.singleton ⟨[wUnit 0 [0]]⟩ ⟨[wUnit 0 [0]]⟩), c))
    ⟨-1, none⟩ (cinit ⟨[wUnit 0 [0]]⟩) (cinit ⟨[wUnit 0 [0]]⟩)
    (MSel.singleton ⟨[wUnit 0 [0]]⟩ ⟨[wUnit 0 [0]]⟩)
    (by decide) rfl rfl

/-- A query is tame when it neither touches the instrumentation trace nor
the deadline flag and always succeeds: the behaviour assumed of inner
queries when reasoning about one combinator's own checking stride. -/
def Tame (q : Query) : Prop :=
  ∀ c : Ctx, ((q c).2).events = c.events ∧ ((q c).2).timedOut = c.timedOut ∧
    ∃ sel, (q c).1 = Except.ok sel

theorem tame_run {q : Query} (h : Tame q) (c : Ctx) :
    ∃ sel, q c = (Except.ok sel, (q c).2) ∧ ((q c).2).events = c.events ∧
      ((q c).2).timedOut = c.timedOut := by
  obtain ⟨hev, htd, sel, hok⟩ := h c
  refine ⟨sel, ?_, hev, htd⟩
  rw [← hok]

theorem wrTrace_atomic : ∀ (units : List MUnit),
    (∀ u ∈ units, u.kind = MKind.atomic) →
    wrTrace units = unitCheckTrace units.length := by
  intro units
  induction units with
  | nil => intro _; rfl
  | cons u rest ih =>
    intro h
    have hk := h u (List.mem_cons_self _ _)
    simp only [wrTrace, hk, List.length_cons, unitCheckTrace]
    rw [ih (fun v hv => h v (List.mem_cons_of_mem _ hv))]
    rfl

theorem gapOK_unitCheckTrace : ∀ n : Nat, gapOK 1 1 (unitCheckTrace n) := by
  intro n
  induction n with
  | zero => simp [unitCheckTrace, gapOK]
  | succ n ih =>
    simp only [unitCheckTrace, gapOK]
    exact ⟨by omega, ih⟩

theorem maxRun_unitCheckTrace_le (n : Nat) : maxRun (unitCheckTrace n) ≤ 1 :=
  maxRun_le_of_gapOK (gapOK_unitCheckTrace n) le_rfl

theorem epScanElems_ctx {V : Type} [DecidableEq V] {prop : PropFn V} {u : MUnit}
    {sI : Nat} : ∀ (es : List Nat) (ctx : Ctx) (m : PMap V),
    ((epScanElems prop u sI ctx es m).2).events = ctx.events ∧
    ((epScanElems prop u sI ctx es m).2).timedOut = ctx.timedOut := by
  intro es
  induction es with
  | nil => intro ctx m; exact ⟨rfl, rfl⟩
  | cons e rest ih =>
    intro ctx m
    simp only [epScanElems]
    exact ih _ _

theorem epScanUnits_ctx {V : Type} [DecidableEq V] {prop : PropFn V} {sI : Nat} :
    ∀ (us : List MUnit) (ctx : Ctx) (m : PMap V),
    ((epScanUnits prop sI ctx us m).2).events = ctx.events ∧
    ((epScanUnits prop sI ctx us m).2).timedOut = ctx.timedOut := by
  intro us
  induction us with
  | nil => intro ctx m; exact ⟨rfl, rfl⟩
  | cons u rest ih =>
    intro ctx m
    simp only [epScanUnits]
    obtain ⟨h1, h2⟩ := ih (epScanElems prop u _ (setCursorUnit ctx u) u.elems m).2
      (epScanElems prop u _ (setCursorUnit ctx u) u.elems m).1
    obtain ⟨g1, g2⟩ := @epScanElems_ctx V _ prop u _ u.elems (setCursorUnit ctx u) m
    exact ⟨h1.trans g1, h2.trans g2⟩

theorem epPass1_ok {V : Type} [DecidableEq V] {prop : PropFn V} :
    ∀ (l : List MStructure) (ctx : Ctx) (sI : Nat) (m : PMap V)
      (bs : List SubsetBuilder), ctx.timedOut = false →
    ∃ m' bs' c', epPass1 prop ctx l sI m bs = (Except.ok (m', bs'), c') ∧
      c'.events = ctx.events ++ strideTrace 10 sI l.length ∧
      c'.timedOut = false := by
  intro l
  induction l with
  | nil =>
    intro ctx sI m bs htd
    exact ⟨m, bs, ctx, rfl, by simp [strideTrace], htd⟩
  | cons s rest ih =>
    intro ctx sI m bs htd
    obtain ⟨g1, g2⟩ := @epScanUnits_ctx V _ prop sI s.units (tickItem ctx) m
    set step := epScanUnits prop sI (tickItem ctx) s.units m with hstep
    have hev : step.2.events = ctx.events ++ [Event.item] := by
      rw [g1]; rfl
    have htd1 : step.2.timedOut = false := by
      rw [g2]; exact htd
    by_cases hmod : sI % 10 = 0
    · have hthrow : throwIfTimedOut step.2 = (Except.ok (),
          { step.2 with events := step.2.events ++ [Event.check] }) := by
        simp [throwIfTimedOut, htd1]
      obtain ⟨m', bs', c', hrec, hev', htd'⟩ := ih
        { step.2 with events := step.2.events ++ [Event.check] } (sI + 1)
        step.1 (bs ++ [[]]) (by simp [htd1])
      refine ⟨m', bs', c', ?_, ?_, htd'⟩
      · simp only [epPass1, if_pos hmod, hthrow, hrec]
      · rw [hev']
        simp only [hev, strideTrace, if_pos hmod, List.length_cons]
        simp [List.append_assoc]
    · obtain ⟨m', bs', c', hrec, hev', htd'⟩ := ih step.2 (sI + 1) step.1
        (bs ++ [[]]) htd1
      refine ⟨m', bs', c', ?_, ?_, htd'⟩
      · simp only [epPass1, if_neg hmod, hrec]
      · rw [hev']
        simp only [hev, strideTrace, if_neg hmod, List.length_cons]
        simp [List.append_assoc]

theorem epElems_events {V : Type} [DecidableEq V] {prop : PropFn V} {m : PMap V}
    {u : MUnit} : ∀ (l : List (Nat × Nat)) (ctx : Ctx) (bs : List SubsetBuilder),
    ((epElems prop m u ctx l bs).2).events = ctx.events := by
  intro l
  induction l with
  | nil => intro ctx bs; rfl
  | cons ie rest ih =>
    intro ctx bs
    obtain ⟨i, e⟩ := ie
    simp only [epElems]
    split
    · exact ih _ _
    · split
      · exact ih _ _
      · split
        · rfl
        · exact ih _ _

theorem epPass2_events {V : Type} [DecidableEq V] {prop : PropFn V} {m : PMap V} :
    ∀ (units : List MUnit) (ctx : Ctx) (bs : List SubsetBuilder),
    ∃ kk, ((epPass2 prop m ctx units bs).2).events
      = ctx.events ++ List.replicate kk Event.item := by
  intro units
  induction units with
  | nil =>
    intro ctx bs
    exact ⟨0, by simp [epPass2]⟩
  | cons u rest ih =>
    intro ctx bs
    simp only [epPass2]
    have hel := @epElems_events V _ prop m u
      u.elems.enum (tickItem (setCursorUnit ctx u)) bs
    split
    · rename_i e c1 heq
      refine ⟨1, ?_⟩
      have : c1 = (epElems prop m u (tickItem (setCursorUnit ctx u)) u.elems.enum bs).2 := by
        rw [heq]
      rw [this, hel]
      simp [tickItem, setCursorUnit, List.replicate]
    · rename_i bs1 c1 heq
      obtain ⟨kk, hkk⟩ := ih c1 bs1
      refine ⟨kk + 1, ?_⟩
      rw [hkk]
      have : c1 = (epElems prop m u (tickItem (setCursorUnit ctx u)) u.elems.enum bs).2 := by
        rw [heq]
      rw [this, hel]
      simp only [tickItem, setCursorUnit]
      simp [List.replicate_succ, List.append_assoc]

theorem epElems_nilmap {V : Type} [DecidableEq V] {prop : PropFn V} {u : MUnit} :
    ∀ (l : List (Nat × Nat)) (ctx : Ctx) (bs : List SubsetBuilder),
    ∃ c', epElems prop ([] : PMap V) u ctx l bs = (Except.ok bs, c') ∧
      c'.events = ctx.events := by
  intro l
  induction l with
  | nil => intro ctx bs; exact ⟨ctx, rfl, rfl⟩
  | cons ie rest ih =>
    intro ctx bs
    obtain ⟨i, e⟩ := ie
    simp only [epElems, pmapFind]
    obtain ⟨c', h1, h2⟩ := ih (setCursorElem ctx e) bs
    exact ⟨c', h1, h2⟩

theorem epPass2_nilmap {V : Type} [DecidableEq V] {prop : PropFn V} :
    ∀ (units : List MUnit) (ctx : Ctx) (bs : List SubsetBuilder),
    ∃ c', epPass2 prop ([] : PMap V) ctx units bs = (Except.ok bs, c') ∧
      c'.events = ctx.events ++ List.replicate units.length Event.item := by
  intro units
  induction units with
  | nil =>
    intro ctx bs
    exact ⟨ctx, rfl, by simp⟩
  | cons u rest ih =>
    intro ctx bs
    obtain ⟨c1, he1, he2⟩ := @epElems_nilmap V _ prop u
      u.elems.enum (tickItem (setCursorUnit ctx u)) bs
    obtain ⟨c', hr1, hr2⟩ := ih c1 bs
    refine ⟨c', ?_, ?_⟩
    · simp only [epPass2, he1, hr1]
    · rw [hr2, he2]
      simp only [tickItem, setCursorUnit, List.length_cons]
      simp [List.replicate_succ, List.append_assoc]

theorem ibGo_trace {uB : MStructure} :
    ∀ (l : List MStructure) (ctx : Ctx) (sI : Nat) (acc : List MStructure),
    ctx.timedOut = false →
    ((ibGo uB ctx l sI acc).2).events = ctx.events ++ strideTrace 50 sI l.length ∧
    ((ibGo uB ctx l sI acc).2).timedOut = false := by
  intro l
  induction l with
  | nil =>
    intro ctx sI acc htd
    simp [ibGo, strideTrace, htd]
  | cons s rest ih =>
    intro ctx sI acc htd
    by_cases hmod : sI % 50 = 0
    · have hthrow : throwIfTimedOut (tickItem ctx) = (Except.ok (),
          { ctx with events := ctx.events ++ [Event.item] ++ [Event.check] }) := by
        simp [throwIfTimedOut, tickItem, htd]
      obtain ⟨h1, h2⟩ := ih
        { ctx with events := ctx.events ++ [Event.item] ++ [Event.check] }
        (sI + 1)
        (if elementCount (structureIntersect uB s) ≠ 0 then
          addUniqueStructure acc (structureIntersect uB s) else acc)
        (by simp [htd])
      constructor
      · simp only [ibGo, if_pos hmod, hthrow]
        rw [h1]
        simp only [strideTrace, if_pos hmod, List.length_cons]
        simp [List.append_assoc]
      · simp only [ibGo, if_pos hmod, hthrow]
        exact h2
    · obtain ⟨h1, h2⟩ := ih { ctx with events := ctx.events ++ [Event.item] }
        (sI + 1)
        (if elementCount (structureIntersect uB s) ≠ 0 then
          addUniqueStructure acc (structureIntersect uB s) else acc)
        (by simp [htd])
      constructor
      · simp only [ibGo, if_neg hmod, tickItem]
        rw [h1]
        simp only [strideTrace, if_neg hmod, List.length_cons]
        simp [List.append_assoc]
      · simp only [ibGo, if_neg hmod, tickItem]
        exact h2

theorem ebGo_trace {uB : MStructure} :
    ∀ (l : List MStructure) (ctx : Ctx) (sI : Nat) (acc : List MStructure),
    ctx.timedOut = false →
    ((ebGo uB ctx l sI acc).2).events = ctx.events ++ strideTrace 50 sI l.length ∧
    ((ebGo uB ctx l sI acc).2).timedOut = false := by
  intro l
  induction l with
  | nil =>
    intro ctx sI acc htd
    simp [ebGo, strideTrace, htd]
  | cons s rest ih =>
    intro ctx sI acc htd
    by_cases hmod : sI % 50 = 0
    · have hthrow : throwIfTimedOut (tickItem ctx) = (Except.ok (),
          { ctx with events := ctx.events ++ [Event.item] ++ [Event.check] }) := by
        simp [throwIfTimedOut, tickItem, htd]
      obtain ⟨h1, h2⟩ := ih
        { ctx with events := ctx.events ++ [Event.item] ++ [Event.check] }
        (sI + 1)
        (if elementCount (structureSubtract s uB) ≠ 0 then
          addUniqueStructure acc (structureSubtract s uB) else acc)
        (by simp [htd])
      constructor
      · simp only [ebGo, if_pos hmod, hthrow]
        rw [h1]
        simp only [strideTrace, if_pos hmod, List.length_cons]
        simp [List.append_assoc]
      · simp only [ebGo, if_pos hmod, hthrow]
        exact h2
    · obtain ⟨h1, h2⟩ := ih { ctx with events := ctx.events ++ [Event.item] }
        (sI + 1)
        (if elementCount (structureSubtract s uB) ≠ 0 then
          addUniqueStructure acc (structureSubtract s uB) else acc)
        (by simp [htd])
      constructor
      · simp only [ebGo, if_neg hmod, tickItem]
        rw [h1]
        simp only [strideTrace, if_neg hmod, List.length_cons]
        simp [List.append_assoc]
      · simp only [ebGo, if_neg hmod, tickItem]
        exact h2

theorem qsGo_trace {q : Query} (hq : Tame q) :
    ∀ (l : List MStructure) (ctx : Ctx) (sI : Nat) (acc : List MStructure),
    ctx.timedOut = false →
    ((qsGo q ctx l sI acc).2).events = ctx.events ++ strideTrace 10 sI l.length ∧
    ((qsGo q ctx l sI acc).2).timedOut = false := by
  intro l
  induction l with
  | nil =>
    intro ctx sI acc htd
    simp [qsGo, strideTrace, htd]
  | cons s rest ih =>
    intro ctx sI acc htd
    obtain ⟨sel, hrun, hev, htd1⟩ := tame_run hq (pushInput (tickItem ctx) s)
    set c1 := (q (pushInput (tickItem ctx) s)).2 with hc1
    have hev' : c1.events = ctx.events ++ [Event.item] := by
      rw [hev]
      rfl
    have htd1' : c1.timedOut = false := by
      rw [htd1]
      exact htd
    by_cases hmod : sI % 10 = 0
    · have hthrow : throwIfTimedOut (popInput c1)
          = (Except.ok (),
            { popInput c1 with events := c1.events ++ [Event.check] }) := by
        simp [throwIfTimedOut, popInput, htd1']
      obtain ⟨h1, h2⟩ := ih
        { popInput c1 with events := c1.events ++ [Event.check] }
        (sI + 1) ((selStructures sel).foldl addUniqueStructure acc)
        (by simp [popInput, htd1'])
      constructor
      · simp only [qsGo, hrun, if_pos hmod, hthrow]
        rw [h1]
        simp only [hev', strideTrace, if_pos hmod, List.length_cons]
        simp [List.append_assoc]
      · simp only [qsGo, hrun, if_pos hmod, hthrow]
        exact h2
    · obtain ⟨h1, h2⟩ := ih (popInput c1)
        (sI + 1) ((selStructures sel).foldl addUniqueStructure acc)
        (by simp [popInput, htd1'])
      constructor
      · simp only [qsGo, hrun, if_neg hmod]
        rw [h1]
        simp only [popInput]
        rw [hev']
        simp only [strideTrace, if_neg hmod, List.length_cons]
        simp [List.append_assoc]
      · simp only [qsGo, hrun, if_neg hmod]
        exact h2

/-- The C10 claim, formalized: for every combinator there is a fixed bound
`k` such that no more than `k` loop items are processed between
consecutive deadline checks (for combinators taking inner queries, with
tame inner queries so the trace reflects the combinator's own loop). -/
def strideBoundClaim : Prop :=
  (∃ k, ∀ (ctx : Ctx) (source struct : MStructure), ctx.timedOut = false →
    ctx.events = [] →
    maxRun ((getWholeResiduesEval ctx source struct).2.events) ≤ k) ∧
  (∃ k, ∀ (lookup : Lookup3d) (conf : Conformation) (ctx : Ctx)
    (source struct : MStructure) (params : ISParams), ctx.timedOut = false →
    ctx.events = [] →
    maxRun ((getIncludeSurroundingsEval lookup conf ctx source struct params).2.events) ≤ k) ∧
  (∃ k, ∀ (selq q : Query) (ctx : Ctx), Tame selq → Tame q →
    ctx.timedOut = false → ctx.events = [] →
    maxRun ((querySelectionEval selq q ctx).2.events) ≤ k) ∧
  (∃ k, ∀ (A B : Query) (ctx : Ctx), Tame A → Tame B →
    ctx.timedOut = false → ctx.events = [] →
    maxRun ((intersectByEval A B ctx).2.events) ≤ k) ∧
  (∃ k, ∀ (A B : Query) (ctx : Ctx), Tame A → Tame B →
    ctx.timedOut = false → ctx.events = [] →
    maxRun ((exceptByEval A B ctx).2.events) ≤ k) ∧
  (∃ k, ∀ (V : Type) (inst : DecidableEq V) (q : Query) (prop : PropFn V)
    (ctx : Ctx), Tame q → ctx.timedOut = false → ctx.events = [] →
    maxRun ((@expandPropertyEval V inst q prop ctx).2.events) ≤ k)

/-- An input structure of `n` units (no elements needed: the second pass
of `expandProperty` walks every unit regardless). -/
def bigStruct (n : Nat) : MStructure :=
  ⟨(List.range n).map (fun i => ⟨i, MKind.coarse, [], []⟩)⟩

/-- A clean context over `bigStruct n`. -/
def ctxBig (n : Nat) : Ctx := ⟨[bigStruct n], ⟨none, none⟩, [], false, [], 0⟩

/-- A tame query returning the empty sequence selection. -/
def qNil : Query := fun c => (Except.ok (MSel.sequence ⟨[]⟩ []), c)

theorem qNil_tame : Tame qNil := fun _ => ⟨rfl, rfl, MSel.sequence ⟨[]⟩ [], rfl⟩

/-- Counterexample to C10 as stated: `expandProperty`'s second pass walks
the entire input structure without a single deadline check, so no fixed
bound `k` on the number of items between checks exists for it: for every
candidate `k`, the run over an input structure with `k + 1` units (with an
empty inner selection) processes `k + 1` items with no check at all. -/
theorem c10_stride_counterexample : ¬ strideBoundClaim := by
  intro h
  obtain ⟨_, _, _, _, _, k, hk⟩ := h
  have hbound := hk Nat instDecidableEqNat qNil (fun _ _ => 0) (ctxBig (k + 1))
    qNil_tame rfl rfl
  have heval : ((expandPropertyEval qNil (fun _ _ => (0 : Nat))
      (ctxBig (k + 1))).2).events = List.replicate (k + 1) Event.item := by
    obtain ⟨c', hp2, hev⟩ := @epPass2_nilmap Nat _ (fun _ _ => (0 : Nat))
      (inputStructure (pushCurrentElement (ctxBig (k + 1)))).units
      (pushCurrentElement (ctxBig (k + 1))) []
    simp only [expandPropertyEval, qNil, selStructures, epPass1, hp2,
      popCurrentElement]
    rw [hev]
    simp [pushCurrentElement, ctxBig, bigStruct, inputStructure]
  rw [heval] at hbound
  have hge := maxRun_replicate_ge (k + 1)
  omega

/-- C10 (amended): the deadline-check strides.  `getWholeResidues` checks
after every atomic unit (bound 1 when all units are atomic; non-atomic
units are copied without a check); `getIncludeSurroundings` checks after
every unit of the accumulation pass (bound 1 without the `wholeResidues`
post-pass, which then follows the wholeResidues stride); `querySelection`
checks every 10th structure (bound 10); `intersectBy` and `exceptBy`
check every 50th structure (bound 50); `expandProperty`'s first pass
checks every 10th structure but its second pass emits no check at all, so
its full trace is a 10-stride prefix followed by check-free items. -/
theorem c10_stride_bounds :
    (∀ (ctx : Ctx) (source struct : MStructure), ctx.timedOut = false →
      ctx.events = [] → (∀ u ∈ struct.units, u.kind = MKind.atomic) →
      maxRun ((getWholeResiduesEval ctx source struct).2.events) ≤ 1) ∧
    (∀ (lookup : Lookup3d) (conf : Conformation) (ctx : Ctx)
      (source struct : MStructure) (params : ISParams), ctx.timedOut = false →
      ctx.events = [] → params.wholeResidues.getD false = false →
      maxRun ((getIncludeSurroundingsEval lookup conf ctx source struct
        params).2.events) ≤ 1) ∧
    (∀ (selq q : Query) (ctx : Ctx), Tame selq → Tame q →
      ctx.timedOut = false → ctx.events = [] →
      maxRun ((querySelectionEval selq q ctx).2.events) ≤ 10) ∧
    (∀ (A B : Query) (ctx : Ctx), Tame A → Tame B → ctx.timedOut = false →
      ctx.events = [] → maxRun ((intersectByEval A B ctx).2.events) ≤ 50) ∧
    (∀ (A B : Query) (ctx : Ctx), Tame A → Tame B → ctx.timedOut = false →
      ctx.events = [] → maxRun ((exceptByEval A B ctx).2.events) ≤ 50) ∧
    (∀ (V : Type) (inst : DecidableEq V) (q : Query) (prop : PropFn V)
      (ctx : Ctx), Tame q → ctx.timedOut = false → ctx.events = [] →
      ∃ n m', ((@expandPropertyEval V inst q prop ctx).2).events
        = strideTrace 10 0 n ++ List.replicate m' Event.item) := by
  refine ⟨?_, ?_, ?_, ?_, ?_, ?_⟩
  · intro ctx source struct htd hev hatomic
    rw [getWholeResiduesEval_ok _ _ _ htd]
    simp only [hev, List.nil_append]
    rw [wrTrace_atomic _ hatomic]
    exact maxRun_unitCheckTrace_le _
  · intro lookup conf ctx source struct params htd hev hflag
    obtain ⟨H, hrun⟩ := @isUnitsGo_ok lookup conf params.radius
      struct.units ctx ∅ htd
    simp only [getIncludeSurroundingsEval, hrun]
    rw [if_neg (by simp [hflag])]
    simp only [hev, List.nil_append]
    exact maxRun_unitCheckTrace_le _
  · intro selq q ctx hsel hq htd hev0
    obtain ⟨sel, hrun, hev, htd1⟩ := tame_run hsel ctx
    set c1 := (selq ctx).2 with hc1
    have hev1 : c1.events = [] := by rw [hev, hev0]
    have htd1' : c1.timedOut = false := by rw [htd1, htd]
    by_cases hc : structureCount sel = 0
    · have hres : ((querySelectionEval selq q ctx).2).events = [] := by
        simp only [querySelectionEval, hrun, if_pos hc]
        exact hev1
      rw [hres]
      simp [maxRun, maxRunAux]
    · have h1 := (qsGo_trace hq (selStructures sel) c1 0 [] htd1').1
      have hres : ((querySelectionEval selq q ctx).2).events
          = strideTrace 10 0 (selStructures sel).length := by
        simp only [querySelectionEval, hrun, if_neg hc]
        split
        · rename_i e c' heq
          have hc' : c' = (qsGo q c1 (selStructures sel) 0 []).2 := by rw [heq]
          rw [hc', h1, hev1, List.nil_append]
        · rename_i acc c' heq
          have hc' : c' = (qsGo q c1 (selStructures sel) 0 []).2 := by rw [heq]
          rw [hc', h1, hev1, List.nil_append]
      rw [hres]
      exact maxRun_strideTrace_le (by omega) 0 _
  · intro A B ctx hA hB htd hev0
    obtain ⟨selA, hrunA, hevA, htdA⟩ := tame_run hA ctx
    set cA := (A ctx).2 with hcA
    have hevA' : cA.events = [] := by rw [hevA, hev0]
    have htdA' : cA.timedOut = false := by rw [htdA, htd]
    by_cases hcnt : structureCount selA = 0
    · have hres : ((intersectByEval A B ctx).2).events = [] := by
        simp only [intersectByEval, hrunA, if_pos hcnt]
        exact hevA'
      rw [hres]
      simp [maxRun, maxRunAux]
    · obtain ⟨selB, hrunB, hevB, htdB⟩ := tame_run hB cA
      set cB := (B cA).2 with hcB
      have hevB' : cB.events = [] := by rw [hevB, hevA']
      have htdB' : cB.timedOut = false := by rw [htdB, htdA']
      by_cases hcntB : structureCount selB = 0
      · have hres : ((intersectByEval A B ctx).2).events = [] := by
          simp only [intersectByEval, hrunA, if_neg hcnt, hrunB, if_pos hcntB]
          exact hevB'
        rw [hres]
        simp [maxRun, maxRunAux]
      · have h1 := (@ibGo_trace (unionStructureOf selB)
          (selStructures selA) cB 0 [] htdB').1
        have hres : ((intersectByEval A B ctx).2).events
            = strideTrace 50 0 (selStructures selA).length := by
          simp only [intersectByEval, hrunA, if_neg hcnt, hrunB, if_neg hcntB]
          split
          · rename_i e c' heq
            have hc' : c' = (ibGo (unionStructureOf selB) cB
                (selStructures selA) 0 []).2 := by rw [heq]
            rw [hc', h1, hevB', List.nil_append]
          · rename_i acc c' heq
            have hc' : c' = (ibGo (unionStructureOf selB) cB
                (selStructures selA) 0 []).2 := by rw [heq]
            rw [hc', h1, hevB', List.nil_append]
        rw [hres]
        exact maxRun_strideTrace_le (by omega) 0 _
  · intro A B ctx hA hB htd hev0
    obtain ⟨selA, hrunA, hevA, htdA⟩ := tame_run hA ctx
    set cA := (A ctx).2 with hcA
    have hevA' : cA.events = [] := by rw [hevA, hev0]
    have htdA' : cA.timedOut = false := by rw [htdA, htd]
    by_cases hcnt : structureCount selA = 0
    · have hres : ((exceptByEval A B ctx).2).events = [] := by
        simp only [exceptByEval, hrunA, if_pos hcnt]
        exact hevA'
      rw [hres]
      simp [maxRun, maxRunAux]
    · obtain ⟨selB, hrunB, hevB, htdB⟩ := tame_run hB cA
      set cB := (B cA).2 with hcB
      have hevB' : cB.events = [] := by rw [hevB, hevA']
      have htdB' : cB.timedOut = false := by rw [htdB, htdA']
      by_cases hcntB : structureCount selB = 0
      · have hres : ((exceptByEval A B ctx).2).events = [] := by
          simp only [exceptByEval, hrunA, if_neg hcnt, hrunB, if_pos hcntB]
          exact hevB'
        rw [hres]
        simp [maxRun, maxRunAux]
      · have h1 := (@ebGo_trace (unionStructureOf selB)
          (selStructures selA) cB 0 [] htdB').1
        have hres : ((exceptByEval A B ctx).2).events
            = strideTrace 50 0 (selStructures selA).length := by
          simp only [exceptByEval, hrunA, if_neg hcnt, hrunB, if_neg hcntB]
          split
          · rename_i e c' heq
            have hc' : c' = (ebGo (unionStructureOf selB) cB
                (selStructures selA) 0 []).2 := by rw [heq]
            rw [hc', h1, hevB', List.nil_append]
          · rename_i acc c' heq
            have hc' : c' = (ebGo (unionStructureOf selB) cB
                (selStructures selA) 0 []).2 := by rw [heq]
            rw [hc', h1, hevB', List.nil_append]
        rw [hres]
        exact maxRun_strideTrace_le (by omega) 0 _
  · intro V inst q prop ctx hq htd hev0
    obtain ⟨sel, hrun, hev, htd1⟩ := tame_run hq ctx
    set c1 := (q ctx).2 with hc1
    have hev1 : (pushCurrentElement c1).events = [] := by
      simp only [pushCurrentElement]
      rw [hev, hev0]
    have htd1' : (pushCurrentElement c1).timedOut = false := by
      simp only [pushCurrentElement]
      rw [htd1, htd]
    obtain ⟨m', bs', cp1, hp1, hp1ev, hp1td⟩ := @epPass1_ok V inst prop
      (selStructures sel) (pushCurrentElement c1) 0 [] [] htd1'
    obtain ⟨kk, hp2ev⟩ := @epPass2_events V inst prop m'
      (inputStructure cp1).units cp1 bs'
    refine ⟨(selStructures sel).length, kk, ?_⟩
    simp only [expandPropertyEval, hrun, hp1]
    split
    · rename_i e c' heq
      have hc' : c' = (epPass2 prop m' cp1 (inputStructure cp1).units bs').2 := by
        rw [heq]
      rw [hc', hp2ev, hp1ev, hev1, List.nil_append]
    · rename_i bs1 c' heq
      have hc' : c' = (epPass2 prop m' cp1 (inputStructure cp1).units bs').2 := by
        rw [heq]
      simp only [popCurrentElement]
      rw [hc', hp2ev, hp1ev, hev1, List.nil_append]

/-- Witness for the amended C10 at concrete inputs for each combinator. -/
theorem c10_stride_bounds_witness :
    maxRun ((getWholeResiduesEval (cinit scenarioInput) scenarioInput
      scenarioSel).2.events) ≤ 1 ∧
    maxRun ((getIncludeSurroundingsEval (fun _ _ _ _ => (∅ : Finset (Nat × Nat)))
      (fun _ _ => (0, 0, 0)) (cinit ⟨[wUnit 0 [0]]⟩) ⟨[wUnit 0 [0]]⟩
      ⟨[wUnit 0 [0]]⟩ ⟨0, none⟩).2.events) ≤ 1 ∧
    maxRun ((querySelectionEval qNil qNil (cinit ⟨[]⟩)).2.events) ≤ 10 ∧
    maxRun ((intersectByEval qNil qNil (cinit ⟨[]⟩)).2.events) ≤ 50 ∧
    maxRun ((exceptByEval qNil qNil (cinit ⟨[]⟩)).2.events) ≤ 50 ∧
    (∃ n m', ((expandPropertyEval qNil (fun _ _ => (0 : Nat))
      (cinit ⟨[]⟩)).2.events) = strideTrace 10 0 n ++
        List.replicate m' Event.item) := by
  refine ⟨?_, ?_, ?_, ?_, ?_, ?_⟩
  · exact c10_stride_bounds.1 (cinit scenarioInput) scenarioInput scenarioSel
      rfl rfl (by decide)
  · exact c10_stride_bounds.2.1 (fun _ _ _ _ => ∅) (fun _ _ => (0, 0, 0))
      (cinit ⟨[wUnit 0 [0]]⟩) ⟨[wUnit 0 [0]]⟩ ⟨[wUnit 0 [0]]⟩ ⟨0, none⟩
      rfl rfl rfl
  · exact c10_stride_bounds.2.2.1 qNil qNil (cinit ⟨[]⟩) qNil_tame qNil_tame
      rfl rfl
  · exact c10_stride_bounds.2.2.2.1 qNil qNil (cinit ⟨[]⟩) qNil_tame qNil_tame
      rfl rfl
  · exact c10_stride_bounds.2.2.2.2.1 qNil qNil (cinit ⟨[]⟩) qNil_tame
      qNil_tame rfl rfl
  · exact c10_stride_bounds.2.2.2.2.2 Nat instDecidableEqNat qNil
      (fun _ _ => (0 : Nat)) (cinit ⟨[]⟩) qNil_tame rfl rfl

end MolQuery
